import Mathlib

/-!
Shallow embedding of `python_scripts/TextAligner_standalone.py`.

Strings are modelled as `List Char`.  Python `str.strip`, `str.lower`,
`str.upper`, `str.splitlines` and the `re` patterns of the script are
embedded as executable Lean functions.  Whitespace is modelled as the ASCII
whitespace characters (codes 9-13 and 32), which is what every input in the
script's domain uses; `str.lower`/`str.upper` are modelled on ASCII plus the
Latin-1 letters that occur in the script's keyword tables.  The anchored
`re.match` tests of the script are translated pattern by pattern; where the
regex engine would backtrack, the embedding uses the equivalent
deterministic characterisation (noted at each definition).
-/

namespace TextAligner

abbrev Str := List Char

/-- ASCII whitespace (codes 9-13 and 32), the model of Python whitespace
(`str.strip`, `\s`). -/
def isSpaceChar (c : Char) : Bool :=
  c.toNat = 32 || c.toNat = 9 || c.toNat = 10 || c.toNat = 13 || c.toNat = 11 || c.toNat = 12

/-- The class `[0-9]`. -/
def isDigitChar (c : Char) : Bool := 48 ≤ c.toNat && c.toNat ≤ 57

/-- The class `[a-zA-Z]`. -/
def isAsciiAlphaCh (c : Char) : Bool :=
  (97 ≤ c.toNat && c.toNat ≤ 122) || (65 ≤ c.toNat && c.toNat ≤ 90)

/-- The character class `[ivxlcdm]` under `re.IGNORECASE`. -/
def isRomanCI (c : Char) : Bool :=
  c = 'i' || c = 'v' || c = 'x' || c = 'l' || c = 'c' || c = 'd' || c = 'm' ||
  c = 'I' || c = 'V' || c = 'X' || c = 'L' || c = 'C' || c = 'D' || c = 'M'

/-- Python `str.lower` on ASCII and the Latin-1 uppercase letters. -/
def pyToLower (c : Char) : Char :=
  if 65 ≤ c.toNat && c.toNat ≤ 90 then Char.ofNat (c.toNat + 32)
  else if 192 ≤ c.toNat && c.toNat ≤ 222 && c.toNat ≠ 215 then Char.ofNat (c.toNat + 32)
  else c

def pyLower (s : Str) : Str := s.map pyToLower

/-- Python `str.upper` of one character: ASCII and Latin-1 lowercase letters
map up, `ß` maps to `SS`, `ÿ` to `Ÿ`; everything else is unchanged. -/
def pyToUpperChar (c : Char) : Str :=
  if 97 ≤ c.toNat && c.toNat ≤ 122 then [Char.ofNat (c.toNat - 32)]
  else if c.toNat = 223 then ['S', 'S']
  else if 224 ≤ c.toNat && c.toNat ≤ 254 && c.toNat ≠ 247 then [Char.ofNat (c.toNat - 32)]
  else if c.toNat = 255 then [Char.ofNat 376]
  else [c]

def pyUpper (s : Str) : Str := (s.map pyToUpperChar).flatten

/-- Python `str.strip`. -/
def pyStrip (s : Str) : Str :=
  ((s.dropWhile isSpaceChar).reverse.dropWhile isSpaceChar).reverse

/-- `p` is a prefix of `s`. -/
def startsWithL (s p : Str) : Bool := decide (s.take p.length = p)

def memStr (x : Str) (l : List Str) : Bool := l.any (fun y => decide (y = x))

/-- Python `s.split(None, 1)[0]` (and `""` when there is no word, matching
the script's `parts[0] if parts else ""`). -/
def firstWordL (s : Str) : Str :=
  (s.dropWhile isSpaceChar).takeWhile (fun c => !isSpaceChar c)

/-- Python `str.splitlines` restricted to the line ends `\n`, `\r\n`, `\r`. -/
def splitlinesAux : Str → Str → List Str
  | [], acc => if acc.isEmpty then [] else [acc.reverse]
  | '\n' :: rest, acc => acc.reverse :: splitlinesAux rest []
  | '\r' :: '\n' :: rest, acc => acc.reverse :: splitlinesAux rest []
  | '\r' :: rest, acc => acc.reverse :: splitlinesAux rest []
  | c :: rest, acc => splitlinesAux rest (c :: acc)

def splitlinesL (s : Str) : List Str := splitlinesAux s []

/-- Whitespace-separated words of a string (used to state token
preservation). -/
def tokensAux : Str → Str → List Str
  | [], acc => if acc.isEmpty then [] else [acc.reverse]
  | c :: rest, acc =>
    if isSpaceChar c then
      if acc.isEmpty then tokensAux rest [] else acc.reverse :: tokensAux rest []
    else tokensAux rest (c :: acc)

def tokensL (s : Str) : List Str := tokensAux s []

/-- Python `"\n".join`. -/
def joinLines : List Str → Str
  | [] => []
  | l :: rest => l ++ (rest.map (fun x => '\n' :: x)).flatten

-- ======================
-- Keyword registry (constants of the script)
-- ======================

def HEADING_KEYWORDS_UPPER_CANONICAL : List Str :=
  ["PART", "BOOK", "ANNEX", "APPENDIX", "SCHEDULE", "PREAMBLE", "CHAPTER", "DIVISION", "SUBPART",
   "PARTE", "LIBRO", "ANEXO", "APÉNDICE", "PREÁMBULO", "CAPÍTULO", "DIVISIÓN", "SUBPARTE",
   "PARTE", "LIVRO", "ANEXO", "APÊNDICE", "PREÂMBULO", "CAPÍTULO", "DIVISÃO", "SUBPARTE",
   "PARTIE", "LIVRE", "ANNEXE", "APPENDICE", "PRÉAMBULE", "CHAPITRE", "DIVISION", "SOUS-PARTIE",
   "TEIL", "BUCH", "ANHANG", "ANLAGE", "KAPITEL", "UNTERTEIL"].map String.data

def HEADING_KEYWORDS_TITLE_CANONICAL : List Str :=
  ["Title", "Section", "Subsection", "Article", "Clause", "Regulation", "Rule", "Order", "Paragraph",
   "Título", "Sección", "Subsección", "Artículo", "Cláusula", "Reglamento", "Regla", "Orden", "Párrafo", "Apartado",
   "Título", "Secção", "Seção", "Subsecção", "Subseção", "Artigo", "Cláusula", "Regulamento", "Regra", "Ordem", "Parágrafo", "Art.",
   "Titre", "Section", "Sous-section", "Article", "Clause", "Règlement", "Règle", "Ordonnance", "Paragraphe",
   "Titel", "Abschnitt", "Unterabschnitt", "Artikel", "Klausel", "Regelung", "Verordnung", "Regel", "Anordnung", "Paragraph", "Absatz"].map String.data

def EXTRA_KEYWORDS_EITHER_CASE : List Str :=
  ["SECTION", "ARTICLE", "TITLE", "TÍTULO", "SECCIÓN", "SECÇÃO", "ARTÍCULO", "ARTIGO",
   "Chapter", "Division"].map String.data

def DETECT_KEYWORDS_UPPER : List Str :=
  (HEADING_KEYWORDS_UPPER_CANONICAL ++ EXTRA_KEYWORDS_EITHER_CASE).map pyLower

def DETECT_KEYWORDS_TITLE : List Str :=
  (HEADING_KEYWORDS_TITLE_CANONICAL ++ EXTRA_KEYWORDS_EITHER_CASE).map pyLower

def ALL_DETECT_KEYWORDS : List Str := DETECT_KEYWORDS_UPPER ++ DETECT_KEYWORDS_TITLE

def AMBIGUOUS_TITLE_KEYWORDS : List Str :=
  ["rule", "order", "paragraph", "clause", "regulation"].map String.data

def PREAMBLE_INTRO_PHRASES : List Str := ["Members,"].map String.data

def PREAMBLE_CLAUSE_STARTERS : List Str :=
  ["Noting", "Considering", "Recognizing", "Recognising", "Recalling", "Desiring",
   "Affirming", "Having carried out", "Striving", "Believing", "Whereas",
   "The Governments of", "The Parties",
   "Conscious of", "Mindful of", "Reaffirming"].map String.data

def TRANSITIONAL_PHRASES : List Str :=
  ["Hereby agree as follows:", "Have agreed as follows:", "The Parties hereby agree as follows:",
   "Agree as follows:", "Adopt the following provisions:"].map String.data

def DETECT_TRANSITIONAL_PHRASES_LOWER : List Str := TRANSITIONAL_PHRASES.map pyLower

-- ======================
-- Line types
-- ======================

inductive LineType where
  | PREAMBLE_HEAD | PREAMBLE_INTRO | PREAMBLE_CLAUSE | TRANSITIONAL
  | HEADING_UPPER | HEADING_TITLE | HEADING_DESC
  | NUMBERED_PARA_HEAD | ENUM_MARKER | NUM_MARKER | ENUM_ITEM | NUMBERED_ITEM
  | FOOTNOTE_BLOCK | ENDS_COLON | REGULAR | BLANK | CONSUMED | UNKNOWN
  | SPLIT_MARKER_PARENT
  deriving DecidableEq, Repr

def memType (t : LineType) (l : List LineType) : Bool := l.any (fun x => decide (x = t))

def MAJOR_STRUCTURAL_TYPES : List LineType :=
  [.HEADING_UPPER, .HEADING_TITLE, .PREAMBLE_HEAD, .TRANSITIONAL, .SPLIT_MARKER_PARENT]

-- ======================
-- Compiled regexes of the script, as anchored prefix matchers
-- ======================

/-- A prefix `\s+\S+` of `l`: one or more whitespace characters followed by a
non-whitespace character. -/
def wsThenNonWs (l : Str) : Bool :=
  match l with
  | [] => false
  | c :: _ => isSpaceChar c && !(l.dropWhile isSpaceChar).isEmpty

def splitDotAux : Str → Str → List Str
  | [], acc => [acc.reverse]
  | '.' :: r, acc => acc.reverse :: splitDotAux r []
  | c :: r, acc => splitDotAux r (c :: acc)

def splitDot (s : Str) : List Str := splitDotAux s []

/-- Full match of `\d+(?:\.\d+)*\.` : dot-separated nonempty digit groups
with a final dot. -/
def isDigitsDotsMarker (s : Str) : Bool :=
  decide (s.getLast? = some '.') &&
  (splitDot s.dropLast).all (fun g => !g.isEmpty && g.all isDigitChar)

/-- Full match of `\(\d+\)`. -/
def isParenDigitsMarker (s : Str) : Bool :=
  match s with
  | '(' :: r =>
    (match r.getLast? with
     | some ')' => let mid := r.dropLast
                   !mid.isEmpty && mid.all isDigitChar
     | _ => false)
  | _ => false

/-- `RE_STANDALONE_NUMBER`: `^\s*\d+\s*$`. -/
def reStandaloneNumber (s : Str) : Bool :=
  let t := s.dropWhile isSpaceChar
  let ds := t.takeWhile isDigitChar
  !ds.isEmpty && (t.drop ds.length).all isSpaceChar

/-- `RE_NUMBERED_ITEM`: `^\s*(?:\d+(?:\.\d+)*\.|\(\d+\))\s+\S+`.  The marker
consists of non-whitespace characters and must be followed by whitespace, so
it is exactly the maximal non-whitespace prefix. -/
def reNumberedItem (s : Str) : Bool :=
  let t := s.dropWhile isSpaceChar
  let head := t.takeWhile (fun c => !isSpaceChar c)
  let rest := t.drop head.length
  (isDigitsDotsMarker head || isParenDigitsMarker head) && wsThenNonWs rest

/-- `RE_NUM_MARKER`: `^\s*(?:\d+(?:\.\d+)*\.|\(\d+\))\s*$`. -/
def reNumMarker (s : Str) : Bool :=
  let t := s.dropWhile isSpaceChar
  let head := t.takeWhile (fun c => !isSpaceChar c)
  let rest := t.drop head.length
  (isDigitsDotsMarker head || isParenDigitsMarker head) && rest.all isSpaceChar

/-- `RE_NUMBERED_PARA_HEAD_MARKER`: `^\s*(?:\d+|[IVXLCDM]+)\.\s*$` with
`re.IGNORECASE`. -/
def reNumberedParaHead (s : Str) : Bool :=
  let t := s.dropWhile isSpaceChar
  let head := t.takeWhile (fun c => !isSpaceChar c)
  let rest := t.drop head.length
  (decide (head.getLast? = some '.') &&
   (let body := head.dropLast
    !body.isEmpty && (body.all isDigitChar || body.all isRomanCI))) &&
  rest.all isSpaceChar

/-- The marker alternatives shared by `RE_ENUM_ITEM` and `RE_ENUM_MARKER`
(`\([a-zA-Z]{1,2}\)`, `\([ivxlcdm]+\)` case-insensitive, `[a-zA-Z]{1,2}\.`,
`[ivxlcdm]+\.` case-insensitive): the list of suffixes remaining after each
alternative that matches at the front of `t`. -/
def enumMarkerRests (t : Str) : List Str :=
  (match t with
   | '(' :: r =>
     let body := r.takeWhile (fun c => decide (c ≠ ')'))
     (match r.drop body.length with
      | ')' :: r2 =>
        if (body.all isAsciiAlphaCh && (body.length = 1 || body.length = 2)) ||
           (!body.isEmpty && body.all isRomanCI) then [r2] else []
      | _ => [])
   | _ => []) ++
  (match t with
   | c1 :: '.' :: r2 => if isAsciiAlphaCh c1 then [r2] else []
   | _ => []) ++
  (match t with
   | c1 :: c2 :: '.' :: r3 => if isAsciiAlphaCh c1 && isAsciiAlphaCh c2 then [r3] else []
   | _ => []) ++
  (let rr := t.takeWhile isRomanCI
   match t.drop rr.length with
   | '.' :: r2 => if rr.isEmpty then [] else [r2]
   | _ => [])

/-- `RE_ENUM_ITEM`: marker alternative followed by `\s+\S+`. -/
def reEnumItem (s : Str) : Bool :=
  (enumMarkerRests (s.dropWhile isSpaceChar)).any wsThenNonWs

/-- `RE_ENUM_MARKER`: marker alternative followed by `\s*$`. -/
def reEnumMarker (s : Str) : Bool :=
  (enumMarkerRests (s.dropWhile isSpaceChar)).any (fun r => r.all isSpaceChar)

/-- `RE_FOOTNOTE_BLOCK`: `^\s*\d+\s+["“].*`. -/
def reFootnoteBlock (s : Str) : Bool :=
  let t := s.dropWhile isSpaceChar
  let ds := t.takeWhile isDigitChar
  let r1 := t.drop ds.length
  let ws := r1.takeWhile isSpaceChar
  let r2 := r1.drop ws.length
  !ds.isEmpty && !ws.isEmpty &&
  (match r2 with
   | c :: _ => c = '"' || c = '“'
   | [] => false)

/-- The letter class of `RE_HEADING_ONLY_KEY_ID`
(`[a-zA-Z]` plus the listed accented letters, either case). -/
def isKwLetter (c : Char) : Bool :=
  isAsciiAlphaCh c ||
  c = 'Á' || c = 'É' || c = 'Í' || c = 'Ó' || c = 'Ú' || c = 'Ñ' || c = 'Ü' || c = 'Ç' ||
  c = 'À' || c = 'Â' || c = 'Ê' || c = 'Î' || c = 'Ô' || c = 'Û' || c = 'Ä' || c = 'Ë' ||
  c = 'Ï' || c = 'Ö' ||
  c = 'á' || c = 'é' || c = 'í' || c = 'ó' || c = 'ú' || c = 'ñ' || c = 'ü' || c = 'ç' ||
  c = 'à' || c = 'â' || c = 'ê' || c = 'î' || c = 'ô' || c = 'û' || c = 'ä' || c = 'ë' ||
  c = 'ï' || c = 'ö'

/-- The class `[0-9IVXLCDM]` of the heading-id regex, case-insensitive. -/
def isIdChar (c : Char) : Bool := isDigitChar c || isRomanCI c

def tailEndPunct (c : Char) : Bool := c = ':' || c = '.' || c = '-' || c = '–'

/-- Full match of `\s*[:.\-–]?\s*$`. -/
def tailEnd (l : Str) : Bool :=
  match l.dropWhile isSpaceChar with
  | [] => true
  | c :: r => tailEndPunct c && r.all isSpaceChar

/-- Full match of `(?:\.[0-9]+)*\s*[:.\-–]?\s*$`; the fuel only needs to be
at least `l.length` since every repetition consumes at least two characters. -/
def idTailF : Nat → Str → Bool
  | 0, l => tailEnd l
  | fuel + 1, l =>
    tailEnd l ||
    (match l with
     | '.' :: r =>
       let ds := r.takeWhile isDigitChar
       !ds.isEmpty && idTailF fuel (r.drop ds.length)
     | _ => false)

/-- `RE_HEADING_ONLY_KEY_ID`: keyword, whitespace, id, optional tail. -/
def reHeadingOnlyKeyId (s : Str) : Bool :=
  let t := s.dropWhile isSpaceChar
  let kw := t.takeWhile isKwLetter
  let r1 := t.drop kw.length
  let ws := r1.takeWhile isSpaceChar
  let r2 := r1.drop ws.length
  let idr := r2.takeWhile isIdChar
  let r3 := r2.drop idr.length
  !kw.isEmpty && !ws.isEmpty && !idr.isEmpty && idTailF r3.length r3

/-- `RE_ITEM_MARKER_START`:
`^\s*(\(?[a-zA-Z0-9]+\)|[a-zA-Z]{1,2}\.|[ivxlcdm]+\.|[IVXLCDM]+\.|\d+\.)`
with `re.IGNORECASE`. -/
def reItemMarkerStart (s : Str) : Bool :=
  let t := s.dropWhile isSpaceChar
  (let t2 := match t with | '(' :: r => r | _ => t
   let an := t2.takeWhile (fun c => isAsciiAlphaCh c || isDigitChar c)
   !an.isEmpty && (match t2.drop an.length with | ')' :: _ => true | _ => false)) ||
  (match t with
   | c1 :: '.' :: _ => isAsciiAlphaCh c1
   | _ => false) ||
  (match t with
   | c1 :: c2 :: '.' :: _ => isAsciiAlphaCh c1 && isAsciiAlphaCh c2
   | _ => false) ||
  (let rr := t.takeWhile isRomanCI
   !rr.isEmpty && (match t.drop rr.length with | '.' :: _ => true | _ => false)) ||
  (let ds := t.takeWhile isDigitChar
   !ds.isEmpty && (match t.drop ds.length with | '.' :: _ => true | _ => false))

/-- `RE_SPLIT_NUMBER_ENUM`:
`^\s*(\d+\.)\s+(\([a-zA-Z]{1,2}\))\s+(.*)$`, returning the three groups on a
match.  Greedy `\s+` runs are the maximal whitespace runs and group 3 is the
remaining suffix. -/
def reSplitNumberEnum (s : Str) : Option (Str × Str × Str) :=
  let t := s.dropWhile isSpaceChar
  let ds := t.takeWhile isDigitChar
  if ds.isEmpty then none else
  match t.drop ds.length with
  | '.' :: r1 =>
    let ws1 := r1.takeWhile isSpaceChar
    if ws1.isEmpty then none else
    (match r1.drop ws1.length with
     | '(' :: r3 =>
       let body := r3.takeWhile (fun c => decide (c ≠ ')'))
       (match r3.drop body.length with
        | ')' :: r4 =>
          if body.all isAsciiAlphaCh && (body.length = 1 || body.length = 2) then
            let ws2 := r4.takeWhile isSpaceChar
            if ws2.isEmpty then none else
            some (ds ++ ['.'], '(' :: (body ++ [')']), r4.drop ws2.length)
          else none
        | _ => none)
     | _ => none)
  | _ => none

-- ======================
-- Line classifier (identify_line_type)
-- ======================

def isPreambleCtx (prev : Option LineType) : Bool :=
  decide (prev = some .PREAMBLE_HEAD) || decide (prev = some .PREAMBLE_INTRO) ||
  decide (prev = some .PREAMBLE_CLAUSE)

/-- The keyword-scan of `identify_line_type` (source lines 140-147): the
longest keyword of `ALL_DETECT_KEYWORDS` that prefixes the lower-cased line
and is followed by end of line, whitespace or a hyphen; `[]` when none
matches. -/
def bestKeyword (stripped : Str) : Str :=
  ALL_DETECT_KEYWORDS.foldl
    (fun best kw =>
      if startsWithL (pyLower stripped) kw &&
         (decide (stripped.length = kw.length) ||
          (match stripped.drop kw.length with
           | c :: _ => isSpaceChar c || c = '-'
           | [] => false)) &&
         decide (best.length < kw.length)
      then kw else best) []

/-- The classifier body on the stripped line (`identify_line_type` works only
with `line.strip()`). -/
def identifyCore (stripped : Str) (prev : Option LineType) : LineType :=
  let lowerStripped := pyLower stripped
  if stripped.isEmpty then .BLANK
  else if reStandaloneNumber stripped then .BLANK
  else if lowerStripped = "preamble".data then .PREAMBLE_HEAD
  else if PREAMBLE_INTRO_PHRASES.any (fun p => decide (stripped = p)) then .PREAMBLE_INTRO
  else if memStr lowerStripped DETECT_TRANSITIONAL_PHRASES_LOWER then .TRANSITIONAL
  else
    let preCtx := isPreambleCtx prev
    if preCtx && PREAMBLE_CLAUSE_STARTERS.any (fun w =>
         startsWithL stripped (w ++ [' ']) && !reEnumItem stripped &&
         !reNumberedItem stripped &&
         !memStr (pyLower (firstWordL stripped)) ALL_DETECT_KEYWORDS)
    then .PREAMBLE_CLAUSE
    else
      let firstWordLower := pyLower (firstWordL stripped)
      let bestKw := if memStr firstWordLower ALL_DETECT_KEYWORDS then bestKeyword stripped else []
      let headingType : Option LineType :=
        if bestKw.isEmpty then none
        else if memStr bestKw DETECT_KEYWORDS_UPPER then some .HEADING_UPPER
        else if memStr bestKw DETECT_KEYWORDS_TITLE then some .HEADING_TITLE
        else some .HEADING_TITLE
      let headingType2 : Option LineType :=
        match headingType with
        | none => none
        | some ht =>
          if (reEnumItem stripped || reNumberedItem stripped) && decide (bestKw.length ≤ 2)
          then none
          else if memStr firstWordLower AMBIGUOUS_TITLE_KEYWORDS then
            if !(reHeadingOnlyKeyId stripped || decide (lowerStripped = firstWordLower))
            then none else some ht
          else some ht
      match headingType2 with
      | some ht => ht
      | none =>
        if reEnumMarker stripped then .ENUM_MARKER
        else if reNumberedParaHead stripped then .NUMBERED_PARA_HEAD
        else if reNumMarker stripped then .NUM_MARKER
        else if reFootnoteBlock stripped then .FOOTNOTE_BLOCK
        else if reEnumItem stripped then .ENUM_ITEM
        else if reNumberedItem stripped then .NUMBERED_ITEM
        else if stripped.getLast? = some ':' then .ENDS_COLON
        else if preCtx && !reNumberedParaHead (firstWordL stripped ++ ['.'])
        then .PREAMBLE_CLAUSE
        else .REGULAR

def identify_line_type (line : Str) (prev : Option LineType) : LineType :=
  identifyCore (pyStrip line) prev

-- ======================
-- Line records and the pipeline (process_text_alignment)
-- ======================

structure Record where
  text : Str
  type : LineType
  original_index : Nat
  merged_into_prev : Bool
  consumes_next : Bool
  is_heading : Bool
  was_split : Bool
  deriving DecidableEq, Repr

/-- `heading_contains_only_keyword_and_id` of the script. -/
def heading_contains_only_keyword_and_id (t : Str) : Bool :=
  reHeadingOnlyKeyId (pyStrip t)

/-- One iteration of the record-building loop (source lines 177-199): the
records a raw line contributes and the updated
`last_line_type_identified`. -/
def buildStep (i : Nat) (line : Str) (last : Option LineType) :
    List Record × Option LineType :=
  let stripped := pyStrip line
  if stripped.isEmpty then ([], last)
  else
    match reSplitNumberEnum stripped with
    | some (g1, g2, g3) =>
      let numMarker := pyStrip g1
      let enumMarker := pyStrip g2
      let content := pyStrip g3
      let numInfo : Record := ⟨numMarker, .SPLIT_MARKER_PARENT, i, false, false, false, true⟩
      let enumInfo : Record :=
        ⟨enumMarker ++ ' ' :: content, .ENUM_ITEM, i, false, false, false, true⟩
      ([numInfo, enumInfo], some .ENUM_ITEM)
    | none =>
      let lt := identify_line_type line last
      if lt = .BLANK then ([], last)
      else
        ([⟨stripped, lt, i, false, false,
           decide (lt = .HEADING_UPPER) || decide (lt = .HEADING_TITLE), false⟩],
         some lt)

def buildRecordsAux : List Str → Nat → Option LineType → List Record
  | [], _, _ => []
  | l :: ls, i, last =>
    let p := buildStep i l last
    p.1 ++ buildRecordsAux ls (i + 1) p.2

def buildRecords (lines : List Str) : List Record := buildRecordsAux lines 0 none

/-- The scan `for j in range(i+1, line_count): if not merged: break`. -/
def findNextUnmergedAux : List Record → Nat → Option Nat
  | [], _ => none
  | r :: rs, j => if !r.merged_into_prev then some j else findNextUnmergedAux rs (j + 1)

def findNextUnmerged (recs : List Record) (j : Nat) : Option Nat :=
  findNextUnmergedAux (recs.drop j) j

def mergeableMarkerTypes : List LineType := [.ENUM_MARKER, .NUM_MARKER, .NUMBERED_PARA_HEAD]

def nonMergeTypes : List LineType :=
  [.HEADING_UPPER, .HEADING_TITLE, .PREAMBLE_HEAD, .PREAMBLE_INTRO, .PREAMBLE_CLAUSE,
   .TRANSITIONAL, .NUMBERED_PARA_HEAD, .ENUM_MARKER, .NUM_MARKER, .ENUM_ITEM,
   .NUMBERED_ITEM, .FOOTNOTE_BLOCK, .SPLIT_MARKER_PARENT]

/-- The type escalation of the marker-merge pass (source lines 220-221). -/
def escalate (t : LineType) : LineType :=
  if t = .ENUM_MARKER then .ENUM_ITEM
  else if t = .NUM_MARKER || t = .NUMBERED_PARA_HEAD then .NUMBERED_ITEM
  else t

/-- One iteration of the marker-merge loop (source lines 203-224): the
updated record list and the next scan index. -/
def markerMergeStep (recs : List Record) (i : Nat) : List Record × Nat :=
  match recs[i]? with
  | none => (recs, i + 1)
  | some cur =>
    if cur.merged_into_prev then (recs, i + 1)
    else if memType cur.type mergeableMarkerTypes &&
            decide (cur.type ≠ .SPLIT_MARKER_PARENT) then
      match findNextUnmerged recs (i + 1) with
      | none => (recs, i + 1)
      | some j =>
        match recs[j]? with
        | none => (recs, i + 1)
        | some nxt =>
          if !memType nxt.type nonMergeTypes && !nxt.text.isEmpty then
            let cur' : Record :=
              { cur with text := cur.text ++ ' ' :: nxt.text,
                         type := escalate cur.type,
                         consumes_next := true }
            ((recs.set j { nxt with merged_into_prev := true }).set i cur', i + 2)
          else (recs, i + 1)
    else (recs, i + 1)

def markerMergeLoopF : Nat → List Record → Nat → List Record
  | 0, recs, _ => recs
  | fuel + 1, recs, i =>
    if i < recs.length then
      let p := markerMergeStep recs i
      markerMergeLoopF fuel p.1 p.2
    else recs

def markerMergePass (recs : List Record) : List Record :=
  markerMergeLoopF recs.length recs 0

/-- One iteration of the heading/description-merge loop (source lines
227-274). -/
def headingMergeStep (recs : List Record) (i : Nat) : List Record × Nat :=
  match recs[i]? with
  | none => (recs, i + 1)
  | some cur =>
    if cur.merged_into_prev || !cur.is_heading then (recs, i + 1)
    else if !heading_contains_only_keyword_and_id cur.text then (recs, i + 1)
    else
      match findNextUnmerged recs (i + 1) with
      | none => (recs, i + 1)
      | some j =>
        match recs[j]? with
        | none => (recs, i + 1)
        | some desc =>
          if desc.text.isEmpty || reItemMarkerStart desc.text ||
             memStr (pyLower (firstWordL desc.text)) ALL_DETECT_KEYWORDS then
            (recs, i + 1)
          else
            let shouldMerge :=
              match findNextUnmerged recs (j + 1) with
              | none => false
              | some k =>
                match recs[k]? with
                | none => false
                | some aft => !memType aft.type MAJOR_STRUCTURAL_TYPES
            if shouldMerge then
              if desc.type = .REGULAR || desc.type = .ENDS_COLON then
                let cur' : Record :=
                  { cur with text := cur.text ++ ' ' :: desc.text, consumes_next := true }
                ((recs.set j { desc with merged_into_prev := true }).set i cur', i + 2)
              else (recs, i + 1)
            else (recs, i + 1)

def headingMergeLoopF : Nat → List Record → Nat → List Record
  | 0, recs, _ => recs
  | fuel + 1, recs, i =>
    if i < recs.length then
      let p := headingMergeStep recs i
      headingMergeLoopF fuel p.1 p.2
    else recs

def headingMergePass (recs : List Record) : List Record :=
  headingMergeLoopF recs.length recs 0

/-- Python `line.strip() == ""` used on output lines. -/
def lineIsBlankStr (l : Str) : Bool := (pyStrip l).isEmpty

def dropTrailingBlanks (out : List Str) : List Str :=
  (out.reverse.dropWhile lineIsBlankStr).reverse

/-- `ensure_blank_lines_before` of the script. -/
def ensure_blank_lines_before (out : List Str) (n : Nat) : List Str :=
  let canAddInitial := out.isEmpty
  let out2 := dropTrailingBlanks out
  if !out2.isEmpty || (canAddInitial && decide (0 < n)) then
    out2 ++ List.replicate n []
  else out2

/-- One iteration of the output loop (source lines 278-311). -/
def emitStep (acc : List Str × Option LineType) (r : Record) : List Str × Option LineType :=
  if r.merged_into_prev then acc
  else
    let out := acc.1
    let newOut :=
      match r.type with
      | .BLANK => if acc.2 ≠ some .BLANK then out ++ [[]] else out
      | .PREAMBLE_HEAD => ensure_blank_lines_before out 2 ++ [pyUpper r.text]
      | .TRANSITIONAL => ensure_blank_lines_before out 2 ++ [r.text]
      | .HEADING_UPPER => ensure_blank_lines_before out 2 ++ [pyUpper r.text]
      | .HEADING_TITLE => ensure_blank_lines_before out 2 ++ [r.text]
      | .NUMBERED_PARA_HEAD => ensure_blank_lines_before out 1 ++ [r.text]
      | .ENUM_MARKER => out ++ [r.text]
      | .NUM_MARKER => out ++ [r.text]
      | .FOOTNOTE_BLOCK => ensure_blank_lines_before out 2 ++ [r.text]
      | .SPLIT_MARKER_PARENT => out ++ [r.text]
      | _ => out ++ [r.text]
    (newOut, some r.type)

def renderOutput (recs : List Record) : List Str :=
  (recs.foldl emitStep ([], none)).1

/-- The record list after both merge passes. -/
def alignedRecords (raw : Str) : List Record :=
  headingMergePass (markerMergePass (buildRecords (splitlinesL raw)))

def processCore (raw : Str) : Str := joinLines (renderOutput (alignedRecords raw))

/-- `process_text_alignment` of the script. -/
def process_text_alignment (raw : String) : String := String.mk (processCore raw.data)

/-- A line that the record-building loop keeps: neither blank nor a
standalone number (candidate page number). -/
def keptLine (l : Str) : Bool :=
  !(pyStrip l).isEmpty && !reStandaloneNumber (pyStrip l)

-- ======================
-- Derived notions used to state the verified properties
-- ======================

/-- A string containing no line-end characters. -/
def noNL (s : Str) : Prop := ∀ c ∈ s, c ≠ '\n' ∧ c ≠ '\r'

/-- Record text wellformedness: nonempty, equal to its own strip, and free of
line-end characters. -/
def goodText (r : Record) : Prop := r.text ≠ [] ∧ pyStrip r.text = r.text ∧ noNL r.text

def goodTexts (recs : List Record) : Prop := ∀ r ∈ recs, goodText r

/-- The texts of the records the output formatter will render. -/
def visTexts (recs : List Record) : List Str :=
  (recs.filter (fun r => !r.merged_into_prev)).map Record.text

/-- The whitespace-separated tokens carried by the visible records. -/
def visTokens (recs : List Record) : List Str :=
  ((visTexts recs).map tokensL).flatten

/-- The upper-cased token sequence of a list of lines. -/
def upTokens (ls : List Str) : List Str := ((ls.map tokensL).flatten).map pyUpper

/-- No record carries both merge flags. -/
def flagsExclusive (recs : List Record) : Prop :=
  ∀ r ∈ recs, ¬(r.merged_into_prev = true ∧ r.consumes_next = true)

/-- Every merged-away record is absorbed by the nearest earlier not-yet-merged
record, and that record has `consumes_next` set: the two flags come in
adjacent pairs. -/
def adjacentPairs (recs : List Record) : Prop :=
  ∀ (j : Nat) (r : Record), recs[j]? = some r → r.merged_into_prev = true →
    ∃ (i : Nat) (c : Record), i < j ∧ recs[i]? = some c ∧
      c.merged_into_prev = false ∧ c.consumes_next = true ∧
      ∀ (k : Nat) (m : Record), i < k → k < j → recs[k]? = some m →
        m.merged_into_prev = true

/-- The types a record that has consumed another can have after the
marker-merge pass. -/
def consumerTypes1 : List LineType := [.ENUM_ITEM, .NUMBERED_ITEM]

/-- The types a record that has consumed another can have after the
heading/description-merge pass. -/
def consumerTypes2 : List LineType :=
  [.ENUM_ITEM, .NUMBERED_ITEM, .HEADING_UPPER, .HEADING_TITLE]

def consumersOk (allowed : List LineType) (recs : List Record) : Prop :=
  ∀ r ∈ recs, r.consumes_next = true → r.type ∈ allowed

def headingFlagOk (recs : List Record) : Prop :=
  ∀ r ∈ recs, r.is_heading = true → r.type = .HEADING_UPPER ∨ r.type = .HEADING_TITLE

/-- The record types that force two blank lines before them in the output
formatter. -/
def forcedTwoTypes : List LineType :=
  [.PREAMBLE_HEAD, .TRANSITIONAL, .HEADING_UPPER, .HEADING_TITLE, .FOOTNOTE_BLOCK]

/-- The invariant maintained by both merge passes: the two flags are
exclusive, they come in adjacent pairs, every consumer has one of the
`allowed` types, and `is_heading` marks exactly the heading types. -/
def mergeInv (allowed : List LineType) (recs : List Record) : Prop :=
  flagsExclusive recs ∧ adjacentPairs recs ∧ consumersOk allowed recs ∧ headingFlagOk recs

-- ======================
-- Basic facts about the loops
-- ======================

theorem markerMergeStep_length (recs : List Record) (i : Nat) :
    (markerMergeStep recs i).1.length = recs.length := by
  unfold markerMergeStep
  dsimp only
  repeat' split
  all_goals simp [List.length_set]

theorem markerMergeStep_lt (recs : List Record) (i : Nat) :
    i + 1 ≤ (markerMergeStep recs i).2 := by
  unfold markerMergeStep
  dsimp only
  repeat' split
  all_goals omega

theorem headingMergeStep_length (recs : List Record) (i : Nat) :
    (headingMergeStep recs i).1.length = recs.length := by
  unfold headingMergeStep
  dsimp only
  repeat' split
  all_goals simp [List.length_set]

theorem headingMergeStep_lt (recs : List Record) (i : Nat) :
    i + 1 ≤ (headingMergeStep recs i).2 := by
  unfold headingMergeStep
  dsimp only
  repeat' split
  all_goals (dsimp only; omega)

/-- The marker-merge scan is insensitive to any fuel that covers the
remaining record count: the scan pointer only moves forward and is bounded
by the (finite) record count. -/
theorem markerMergeLoopF_fuel :
    ∀ (f g : Nat) (recs : List Record) (i : Nat),
      recs.length - i ≤ f → recs.length - i ≤ g →
      markerMergeLoopF f recs i = markerMergeLoopF g recs i := by
  intro f
  induction f with
  | zero =>
    intro g recs i hf hg
    have hi : recs.length ≤ i := by omega
    cases g with
    | zero => rfl
    | succ g =>
      simp only [markerMergeLoopF]
      rw [if_neg (by omega)]
  | succ f ih =>
    intro g recs i hf hg
    by_cases hi : i < recs.length
    · have hg1 : 1 ≤ g := by omega
      obtain ⟨g', rfl⟩ : ∃ g', g = g' + 1 := ⟨g - 1, by omega⟩
      simp only [markerMergeLoopF, if_pos hi]
      apply ih
      · have h1 := markerMergeStep_length recs i
        have h2 := markerMergeStep_lt recs i
        omega
      · have h1 := markerMergeStep_length recs i
        have h2 := markerMergeStep_lt recs i
        omega
    · cases g with
      | zero => simp only [markerMergeLoopF]; rw [if_neg hi]
      | succ g => simp only [markerMergeLoopF]; rw [if_neg hi, if_neg hi]

/-- Fuel-insensitivity of the heading/description-merge scan. -/
theorem headingMergeLoopF_fuel :
    ∀ (f g : Nat) (recs : List Record) (i : Nat),
      recs.length - i ≤ f → recs.length - i ≤ g →
      headingMergeLoopF f recs i = headingMergeLoopF g recs i := by
  intro f
  induction f with
  | zero =>
    intro g recs i hf hg
    have hi : recs.length ≤ i := by omega
    cases g with
    | zero => rfl
    | succ g =>
      simp only [headingMergeLoopF]
      rw [if_neg (by omega)]
  | succ f ih =>
    intro g recs i hf hg
    by_cases hi : i < recs.length
    · have hg1 : 1 ≤ g := by omega
      obtain ⟨g', rfl⟩ : ∃ g', g = g' + 1 := ⟨g - 1, by omega⟩
      simp only [headingMergeLoopF, if_pos hi]
      apply ih
      · have h1 := headingMergeStep_length recs i
        have h2 := headingMergeStep_lt recs i
        omega
      · have h1 := headingMergeStep_length recs i
        have h2 := headingMergeStep_lt recs i
        omega
    · cases g with
      | zero => simp only [headingMergeLoopF]; rw [if_neg hi]
      | succ g => simp only [headingMergeLoopF]; rw [if_neg hi, if_neg hi]

-- ======================
-- Claim theorems (concrete parts)
-- ======================

/-- Claim C1, counterexample: on the two-line input the code does NOT merge
the heading with the description (the after-description check finds no next
record and then refuses the merge), so the output is not the merged
string. -/
theorem C1_counterexample :
    process_text_alignment "PART I\nGeneral Provisions" ≠ "\n\nPART I General Provisions" := by
  decide

/-- Claim C1 as amended: with only two lines the after-description check
finds no next record and the merge is REFUSED, so the output keeps the
description on its own line (heading upper-cased, two leading blank lines);
no record consumed another. -/
theorem C1_amended :
    process_text_alignment "PART I\nGeneral Provisions" = "\n\nPART I\nGeneral Provisions" ∧
    (alignedRecords "PART I\nGeneral Provisions".data).map Record.consumes_next =
      [false, false] := by
  constructor
  · decide
  · decide

/-- Claim C2, counterexample: the keyword "section" belongs to both detect
sets, yet `identify_line_type "Section 1"` returns `HEADING_UPPER`, not
`HEADING_TITLE`: the tie goes to the upper-case set, which is tested
first. -/
theorem C2_counterexample :
    memStr (bestKeyword (pyStrip "Section 1".data)) DETECT_KEYWORDS_UPPER = true ∧
    memStr (bestKeyword (pyStrip "Section 1".data)) DETECT_KEYWORDS_TITLE = true ∧
    identify_line_type "Section 1".data none ≠ LineType.HEADING_TITLE := by
  refine ⟨by decide, by decide, by decide⟩

/-- Claim C3, counterexample: "MEMBERS," is a case-insensitive match of the
preamble-intro token "Members,», yet the classifier returns `REGULAR`, not
`PREAMBLE_INTRO`: the comparison in the source is `stripped == phrase`,
exact case. -/
theorem C3_counterexample :
    pyLower (pyStrip "MEMBERS,".data) = pyLower "Members,".data ∧
    identify_line_type "MEMBERS,".data none = LineType.REGULAR ∧
    LineType.REGULAR ≠ LineType.PREAMBLE_INTRO := by
  refine ⟨by decide, by decide, by decide⟩

/-- Claim C3 as amended: the preamble-intro match is exact-case.  A line
whose trimmed text is exactly "Members," classifies as `PREAMBLE_INTRO`
(whatever the previous type), while the case variants "MEMBERS," and
"members," classify as `REGULAR`. -/
theorem C3_amended :
    (∀ (l : Str) (prev : Option LineType),
        pyStrip l = "Members,".data → identify_line_type l prev = .PREAMBLE_INTRO) ∧
    identify_line_type "MEMBERS,".data none = .REGULAR ∧
    identify_line_type "members,".data none = .REGULAR := by
  refine ⟨?_, by decide, by decide⟩
  intro l prev h
  simp only [identify_line_type, h]
  rcases prev with _ | t
  · decide
  · cases t <;> decide

theorem C3_witness : identify_line_type "  Members,  ".data none = .PREAMBLE_INTRO :=
  C3_amended.1 "  Members,  ".data none (by decide)

/-- Claim C4, counterexample: for the input "PART I" the first emitted
record is a `HEADING_UPPER`, which forces two blank lines, and those blank
lines are NOT suppressed at the very start: the returned string begins with
two blank lines. -/
theorem C4_counterexample :
    process_text_alignment "PART I" = "\n\nPART I" ∧
    (splitlinesL (process_text_alignment "PART I").data).head? = some [] := by
  refine ⟨by decide, by decide⟩

/-- Claim C5: one iteration of the marker-merge scan at an eligible marker
record concatenates the next unmerged record's text with one separating
space, escalates the marker type (`ENUM_MARKER` to `ENUM_ITEM`,
`NUM_MARKER`/`NUMBERED_PARA_HEAD` to `NUMBERED_ITEM`), marks the absorbed
record `merged_into_prev` and the marker `consumes_next`, and advances the
scan past the absorbed record; in particular `"(a)\nFirst item text"` fuses
into the single visible `ENUM_ITEM` record `"(a) First item text"`. -/
theorem C5_marker_merge :
    (∀ (recs : List Record) (i j : Nat) (cur nxt : Record),
        recs[i]? = some cur → cur.merged_into_prev = false →
        memType cur.type mergeableMarkerTypes = true →
        findNextUnmerged recs (i + 1) = some j →
        recs[j]? = some nxt →
        memType nxt.type nonMergeTypes = false →
        nxt.text ≠ [] →
        markerMergeStep recs i =
          ((recs.set j { nxt with merged_into_prev := true }).set i
             { cur with text := cur.text ++ ' ' :: nxt.text,
                        type := escalate cur.type, consumes_next := true },
           i + 2)) ∧
    escalate .ENUM_MARKER = .ENUM_ITEM ∧
    escalate .NUM_MARKER = .NUMBERED_ITEM ∧
    escalate .NUMBERED_PARA_HEAD = .NUMBERED_ITEM ∧
    alignedRecords "(a)\nFirst item text".data =
      [⟨"(a) First item text".data, .ENUM_ITEM, 0, false, true, false, false⟩,
       ⟨"First item text".data, .REGULAR, 1, true, false, false, false⟩] ∧
    process_text_alignment "(a)\nFirst item text" = "(a) First item text" := by
  refine ⟨?_, by decide, by decide, by decide, by decide, by decide⟩
  intro recs i j cur nxt h1 h2 h3 h4 h5 h6 h7
  have hmem : cur.type ∈ mergeableMarkerTypes := by
    simpa [memType] using h3
  have hsp : decide (cur.type ≠ .SPLIT_MARKER_PARENT) = true := by
    simp only [mergeableMarkerTypes, List.mem_cons, List.not_mem_nil, or_false] at hmem
    rcases hmem with h | h | h <;> rw [h] <;> decide
  have h7' : nxt.text.isEmpty = false := by
    cases htext : nxt.text with
    | nil => exact absurd htext h7
    | cons a l => rfl
  unfold markerMergeStep
  simp only [h1, h2, h3, hsp, h4, h5, h6, h7']
  simp

theorem C5_witness :
    markerMergeStep
      [⟨"(a)".data, .ENUM_MARKER, 0, false, false, false, false⟩,
       ⟨"First item text".data, .REGULAR, 1, false, false, false, false⟩] 0 =
      ([⟨"(a) First item text".data, .ENUM_ITEM, 0, false, true, false, false⟩,
        ⟨"First item text".data, .REGULAR, 1, true, false, false, false⟩], 2) := by
  have h := C5_marker_merge.1
    [⟨"(a)".data, .ENUM_MARKER, 0, false, false, false, false⟩,
     ⟨"First item text".data, .REGULAR, 1, false, false, false, false⟩] 0 1
    ⟨"(a)".data, .ENUM_MARKER, 0, false, false, false, false⟩
    ⟨"First item text".data, .REGULAR, 1, false, false, false, false⟩
    (by decide) (by decide) (by decide) (by decide) (by decide) (by decide) (by decide)
  exact h.trans (by decide)

/-- Claim C6: a raw line matching `RE_SPLIT_NUMBER_ENUM` is emitted — before
any classification — as exactly two records, a `SPLIT_MARKER_PARENT`
carrying only the number marker and an `ENUM_ITEM` carrying the enum marker
concatenated with the content; on the example they come out as two separate
output lines. -/
theorem C6_split_repair :
    (∀ (i : Nat) (line : Str) (last : Option LineType) (g1 g2 g3 : Str),
        reSplitNumberEnum (pyStrip line) = some (g1, g2, g3) →
        (buildStep i line last).1 =
          [⟨pyStrip g1, .SPLIT_MARKER_PARENT, i, false, false, false, true⟩,
           ⟨pyStrip g2 ++ ' ' :: pyStrip g3, .ENUM_ITEM, i, false, false, false, true⟩]) ∧
    renderOutput (alignedRecords "6. (a) Split content here".data) =
      ["6.".data, "(a) Split content here".data] ∧
    process_text_alignment "6. (a) Split content here" = "6.\n(a) Split content here" := by
  refine ⟨?_, by decide, by decide⟩
  intro i line last g1 g2 g3 h
  have hne : (pyStrip line).isEmpty = false := by
    cases hs : pyStrip line with
    | nil => rw [hs] at h; simp [reSplitNumberEnum] at h
    | cons a l => rfl
  unfold buildStep
  simp only [hne, h]
  simp

theorem C6_witness :
    (buildStep 0 "6. (a) Split content here".data none).1 =
      [⟨"6.".data, .SPLIT_MARKER_PARENT, 0, false, false, false, true⟩,
       ⟨"(a) Split content here".data, .ENUM_ITEM, 0, false, false, false, true⟩] := by
  have h := C6_split_repair.1 0 "6. (a) Split content here".data none
    "6.".data "(a)".data "Split content here".data (by decide)
  exact h.trans (by decide)

/-- Claim C7, counterexample: the token "Chapter" of the kept input line
"Chapter one" does not appear in the output — the formatter upper-cases
`HEADING_UPPER` text, so the output tokens are "CHAPTER" and "ONE". -/
theorem C7_counterexample :
    "Chapter".data ∈ tokensL "Chapter one".data ∧
    keptLine "Chapter one".data = true ∧
    "Chapter".data ∉ tokensL (process_text_alignment "Chapter one").data := by
  refine ⟨by decide, by decide, by decide⟩

/-- Claim C9: the pipeline is total; the empty input produces empty output,
and each merge scan is insensitive to its fuel bound as soon as the bound
covers the remaining record count — the scan pointer only moves forward and
is bounded by the finite record count. -/
theorem C9_total :
    process_text_alignment "" = "" ∧
    (∀ (f g : Nat) (recs : List Record) (i : Nat),
        recs.length - i ≤ f → recs.length - i ≤ g →
        markerMergeLoopF f recs i = markerMergeLoopF g recs i) ∧
    (∀ (f g : Nat) (recs : List Record) (i : Nat),
        recs.length - i ≤ f → recs.length - i ≤ g →
        headingMergeLoopF f recs i = headingMergeLoopF g recs i) :=
  ⟨by decide, markerMergeLoopF_fuel, headingMergeLoopF_fuel⟩

-- ======================
-- Character facts
-- ======================

theorem toNat_ofNat_lt {n : Nat} (h : n < 55296) : (Char.ofNat n).toNat = n := by
  have hv : n.isValidChar := Or.inl h
  rw [Char.ofNat, dif_pos hv]
  rfl

theorem isSpaceChar_pyToLower (c : Char) : isSpaceChar (pyToLower c) = isSpaceChar c := by
  unfold pyToLower
  split
  · next h =>
    simp only [Bool.and_eq_true, decide_eq_true_eq] at h
    have ht : (Char.ofNat (c.toNat + 32)).toNat = c.toNat + 32 := toNat_ofNat_lt (by omega)
    have l1 : isSpaceChar (Char.ofNat (c.toNat + 32)) = false := by
      simp only [isSpaceChar, ht, Bool.or_eq_false_iff, decide_eq_false_iff_not]
      omega
    have l2 : isSpaceChar c = false := by
      simp only [isSpaceChar, Bool.or_eq_false_iff, decide_eq_false_iff_not]
      omega
    rw [l1, l2]
  · split
    · next h h2 =>
      simp only [Bool.and_eq_true, decide_eq_true_eq] at h2
      have ht : (Char.ofNat (c.toNat + 32)).toNat = c.toNat + 32 := toNat_ofNat_lt (by omega)
      have l1 : isSpaceChar (Char.ofNat (c.toNat + 32)) = false := by
        simp only [isSpaceChar, ht, Bool.or_eq_false_iff, decide_eq_false_iff_not]
        omega
      have l2 : isSpaceChar c = false := by
        simp only [isSpaceChar, Bool.or_eq_false_iff, decide_eq_false_iff_not]
        omega
      rw [l1, l2]
    · rfl

theorem pyToLower_digit {c : Char} (h : isDigitChar c = true) : pyToLower c = c := by
  simp only [isDigitChar, Bool.and_eq_true, decide_eq_true_eq] at h
  unfold pyToLower
  rw [if_neg (by simp; omega), if_neg (by simp; omega)]

theorem pyToUpperChar_ws {c : Char} (h : isSpaceChar c = true) : pyToUpperChar c = [c] := by
  simp only [isSpaceChar, Bool.or_eq_true, decide_eq_true_eq] at h
  unfold pyToUpperChar
  rw [if_neg (by simp; omega), if_neg (by omega), if_neg (by simp; omega), if_neg (by omega)]

theorem pyToUpperChar_ne_nil (c : Char) : pyToUpperChar c ≠ [] := by
  unfold pyToUpperChar
  repeat' split
  all_goals simp

theorem pyToUpperChar_not_ws {c : Char} (h : isSpaceChar c = false) :
    ∀ d ∈ pyToUpperChar c, isSpaceChar d = false := by
  intro d hd
  unfold pyToUpperChar at hd
  split at hd
  · next hc =>
    simp only [Bool.and_eq_true, decide_eq_true_eq] at hc
    simp only [List.mem_singleton] at hd
    subst hd
    have : (Char.ofNat (c.toNat - 32)).toNat = c.toNat - 32 := toNat_ofNat_lt (by omega)
    simp [isSpaceChar, this]
    omega
  · split at hd
    · simp only [List.mem_cons, List.not_mem_nil, or_false] at hd
      rcases hd with rfl | rfl <;> decide
    · split at hd
      · next h1 h2 hc =>
        simp only [Bool.and_eq_true, decide_eq_true_eq] at hc
        simp only [List.mem_singleton] at hd
        subst hd
        have : (Char.ofNat (c.toNat - 32)).toNat = c.toNat - 32 := toNat_ofNat_lt (by omega)
        simp [isSpaceChar, this]
        omega
      · split at hd
        · simp only [List.mem_singleton] at hd
          subst hd
          decide
        · simp only [List.mem_singleton] at hd
          subst hd
          exact h

/-- `pyToUpperChar` produces only characters it maps to themselves, so
`pyUpper` is idempotent character by character. -/
theorem pyToUpperChar_fix {c : Char} :
    ∀ d ∈ pyToUpperChar c, pyToUpperChar d = [d] := by
  intro d hd
  unfold pyToUpperChar at hd
  split at hd
  · next hc =>
    simp only [Bool.and_eq_true, decide_eq_true_eq] at hc
    simp only [List.mem_singleton] at hd
    subst hd
    have : (Char.ofNat (c.toNat - 32)).toNat = c.toNat - 32 := toNat_ofNat_lt (by omega)
    unfold pyToUpperChar
    rw [if_neg (by simp [this]; omega), if_neg (by simp [this]; omega),
        if_neg (by simp [this]; omega), if_neg (by simp [this]; omega)]
  · split at hd
    · simp only [List.mem_cons, List.not_mem_nil, or_false] at hd
      rcases hd with rfl | rfl <;> decide
    · split at hd
      · next h1 h2 hc =>
        simp only [Bool.and_eq_true, decide_eq_true_eq] at hc
        simp only [List.mem_singleton] at hd
        subst hd
        have : (Char.ofNat (c.toNat - 32)).toNat = c.toNat - 32 := toNat_ofNat_lt (by omega)
        unfold pyToUpperChar
        rw [if_neg (by simp [this]; omega), if_neg (by simp [this]; omega),
            if_neg (by simp [this]; omega), if_neg (by simp [this]; omega)]
      · split at hd
        · simp only [List.mem_singleton] at hd
          subst hd
          decide
        · next h1 h2 h3 h4 =>
          simp only [List.mem_singleton] at hd
          subst hd
          unfold pyToUpperChar
          rw [if_neg h1, if_neg h2, if_neg h3, if_neg h4]

theorem pyUpper_append (a b : Str) : pyUpper (a ++ b) = pyUpper a ++ pyUpper b := by
  simp [pyUpper]

theorem pyUpper_idem (s : Str) : pyUpper (pyUpper s) = pyUpper s := by
  induction s with
  | nil => rfl
  | cons c r ih =>
    have hc : pyUpper (c :: r) = pyToUpperChar c ++ pyUpper r := by simp [pyUpper]
    rw [hc, pyUpper_append, ih]
    congr 1
    have : ∀ (u : Str), (∀ d ∈ u, pyToUpperChar d = [d]) → pyUpper u = u := by
      intro u hu
      induction u with
      | nil => rfl
      | cons d v ihv =>
        have : pyUpper (d :: v) = pyToUpperChar d ++ pyUpper v := by simp [pyUpper]
        rw [this, hu d (by simp), ihv (fun x hx => hu x (by simp [hx]))]
        rfl
    exact this _ (fun d hd => pyToUpperChar_fix d hd)

-- ======================
-- Strip facts
-- ======================

theorem dropWhile_head?_not {α} (p : α → Bool) (l : List α) (c : α)
    (h : (l.dropWhile p).head? = some c) : p c = false := by
  induction l with
  | nil => simp [List.dropWhile] at h
  | cons a l ih =>
    by_cases ha : p a
    · rw [List.dropWhile_cons_of_pos ha] at h
      exact ih h
    · rw [List.dropWhile_cons_of_neg ha] at h
      simp only [List.head?_cons, Option.some.injEq] at h
      subst h
      simpa using ha

theorem dropWhile_eq_self_of {α} (p : α → Bool) (l : List α)
    (h : ∀ c, l.head? = some c → p c = false) : l.dropWhile p = l := by
  cases l with
  | nil => rfl
  | cons a l =>
    have := h a rfl
    rw [List.dropWhile_cons_of_neg (by simp [this])]

theorem pyStrip_head?_not (s : Str) (c : Char) (h : (pyStrip s).head? = some c) :
    isSpaceChar c = false := by
  unfold pyStrip at h
  rw [List.head?_reverse] at h
  obtain ⟨pre, hpre⟩ :=
    List.dropWhile_suffix (l := (s.dropWhile isSpaceChar).reverse) isSpaceChar
  have h2 : ((s.dropWhile isSpaceChar).reverse).getLast? = some c := by
    rw [← hpre, List.getLast?_append, h]
    rfl
  rw [List.getLast?_reverse] at h2
  exact dropWhile_head?_not _ _ _ h2

theorem pyStrip_getLast?_not (s : Str) (c : Char) (h : (pyStrip s).getLast? = some c) :
    isSpaceChar c = false := by
  unfold pyStrip at h
  rw [List.getLast?_reverse] at h
  exact dropWhile_head?_not _ _ _ h

theorem pyStrip_eq_self (s : Str)
    (h1 : ∀ c, s.head? = some c → isSpaceChar c = false)
    (h2 : ∀ c, s.getLast? = some c → isSpaceChar c = false) : pyStrip s = s := by
  unfold pyStrip
  rw [dropWhile_eq_self_of _ _ h1]
  rw [dropWhile_eq_self_of _ _ (by
    intro c hc
    rw [List.head?_reverse] at hc
    exact h2 c hc)]
  exact List.reverse_reverse s

theorem pyStrip_idem (s : Str) : pyStrip (pyStrip s) = pyStrip s :=
  pyStrip_eq_self _ (pyStrip_head?_not s) (pyStrip_getLast?_not s)

theorem pyStrip_of_no_ws (s : Str) (h : ∀ c ∈ s, isSpaceChar c = false) :
    pyStrip s = s := by
  apply pyStrip_eq_self
  · intro c hc
    exact h c (by cases s <;> simp_all)
  · intro c hc
    have : c ∈ s := List.mem_of_mem_getLast? (by rw [hc]; rfl)
    exact h c this

theorem pyStrip_eq_nil_iff (s : Str) :
    pyStrip s = [] ↔ ∀ c ∈ s, isSpaceChar c = true := by
  unfold pyStrip
  rw [List.reverse_eq_nil_iff, List.dropWhile_eq_nil_iff]
  constructor
  · intro h c hc
    rcases List.mem_append.mp
        ((List.takeWhile_append_dropWhile (p := isSpaceChar) (l := s)) ▸ hc) with h1 | h1
    · exact List.mem_takeWhile_imp h1
    · exact h c (by simpa using h1)
  · intro h c hc
    rw [List.mem_reverse] at hc
    exact h c (List.dropWhile_subset _ hc)

/-- A stripped nonempty string stays stripped when another stripped nonempty
string is attached with a single separating space. -/
theorem pyStrip_append_sep (a b : Str) (ha : pyStrip a = a) (hb : pyStrip b = b)
    (hna : a ≠ []) (hnb : b ≠ []) : pyStrip (a ++ ' ' :: b) = a ++ ' ' :: b := by
  apply pyStrip_eq_self
  · intro c hc
    cases a with
    | nil => exact absurd rfl hna
    | cons a0 a' =>
      simp only [List.cons_append, List.head?_cons, Option.some.injEq] at hc
      subst hc
      exact pyStrip_head?_not _ _ (by rw [ha]; rfl)
  · intro c hc
    have hb' : b.getLast? = some c := by
      rw [List.getLast?_append] at hc
      have hcons : (' ' :: b).getLast? = b.getLast? := by
        cases b with
        | nil => exact absurd rfl hnb
        | cons b0 b' => exact List.getLast?_cons_cons
      rw [hcons] at hc
      cases hgb : b.getLast? with
      | none => exact absurd (List.getLast?_eq_none_iff.mp hgb) hnb
      | some d =>
        rw [hgb] at hc
        simpa using hc
    exact pyStrip_getLast?_not _ _ (by rw [hb]; exact hb')

-- ======================
-- Token facts
-- ======================

theorem tokensAux_nil (acc : Str) :
    tokensAux [] acc = if acc.isEmpty = true then [] else [acc.reverse] := rfl

theorem tokensAux_cons (c : Char) (rest acc : Str) :
    tokensAux (c :: rest) acc =
      if isSpaceChar c = true then
        (if acc.isEmpty = true then tokensAux rest [] else acc.reverse :: tokensAux rest [])
      else tokensAux rest (c :: acc) := rfl

theorem tokensAux_flush (t : Str) (h : ∀ c ∈ t, isSpaceChar c = true) :
    ∀ acc : Str, tokensAux t acc = if acc.isEmpty = true then [] else [acc.reverse] := by
  induction t with
  | nil => intro acc; rfl
  | cons c r ih =>
    intro acc
    have hc : isSpaceChar c = true := h c (by simp)
    have ih' := ih (fun x hx => h x (by simp [hx])) []
    rw [tokensAux_cons, if_pos hc]
    by_cases hacc : acc.isEmpty = true
    · rw [if_pos hacc, if_pos hacc, ih']
      rfl
    · rw [if_neg hacc, if_neg hacc, ih']
      rfl

theorem tokensAux_ws_append (a b : Str) (w : Char) (hw : isSpaceChar w = true) :
    ∀ acc : Str, tokensAux (a ++ w :: b) acc = tokensAux a acc ++ tokensL b := by
  induction a with
  | nil =>
    intro acc
    rw [List.nil_append, tokensAux_cons, if_pos hw, tokensAux_nil]
    by_cases hacc : acc.isEmpty = true
    · rw [if_pos hacc, if_pos hacc]
      rfl
    · rw [if_neg hacc, if_neg hacc]
      rfl
  | cons c a' ih =>
    intro acc
    rw [List.cons_append, tokensAux_cons, tokensAux_cons]
    by_cases hc : isSpaceChar c = true
    · rw [if_pos hc, if_pos hc]
      by_cases hacc : acc.isEmpty = true
      · rw [if_pos hacc, if_pos hacc, ih]
      · rw [if_neg hacc, if_neg hacc, ih]
        rfl
    · rw [if_neg hc, if_neg hc, ih]

theorem tokensL_append_ws (a b : Str) : tokensL (a ++ ' ' :: b) = tokensL a ++ tokensL b :=
  tokensAux_ws_append a b ' ' (by decide) []

theorem tokensL_leading_ws (w b : Str) (hw : ∀ c ∈ w, isSpaceChar c = true) :
    tokensL (w ++ b) = tokensL b := by
  induction w with
  | nil => rfl
  | cons c w' ih =>
    have hc : isSpaceChar c = true := hw c (by simp)
    show tokensAux (c :: (w' ++ b)) [] = tokensL b
    rw [tokensAux_cons, if_pos hc]
    simpa using ih (fun x hx => hw x (by simp [hx]))

theorem tokensAux_trailing_ws (t : Str) (ht : ∀ c ∈ t, isSpaceChar c = true) (x : Str) :
    ∀ acc, tokensAux (x ++ t) acc = tokensAux x acc := by
  induction x with
  | nil =>
    intro acc
    rw [List.nil_append, tokensAux_flush t ht acc, tokensAux_nil]
  | cons c x' ih =>
    intro acc
    rw [List.cons_append, tokensAux_cons, tokensAux_cons]
    by_cases hc : isSpaceChar c = true
    · rw [if_pos hc, if_pos hc]
      by_cases hacc : acc.isEmpty = true
      · rw [if_pos hacc, if_pos hacc, ih]
      · rw [if_neg hacc, if_neg hacc, ih]
    · rw [if_neg hc, if_neg hc, ih]

theorem tokensL_trailing_ws (x t : Str) (ht : ∀ c ∈ t, isSpaceChar c = true) :
    tokensL (x ++ t) = tokensL x :=
  tokensAux_trailing_ws t ht x []

/-- The tokens of a line are those of its strip. -/
theorem tokensL_pyStrip (s : Str) : tokensL (pyStrip s) = tokensL s := by
  have hu : s = s.takeWhile isSpaceChar ++ s.dropWhile isSpaceChar :=
    (List.takeWhile_append_dropWhile (p := isSpaceChar) (l := s)).symm
  have hdecomp : s.dropWhile isSpaceChar =
      pyStrip s ++ ((s.dropWhile isSpaceChar).reverse.takeWhile isSpaceChar).reverse := by
    conv_lhs => rw [← List.reverse_reverse (s.dropWhile isSpaceChar)]
    conv_lhs =>
      rw [← List.takeWhile_append_dropWhile (p := isSpaceChar)
            (l := (s.dropWhile isSpaceChar).reverse)]
    rw [List.reverse_append]
    rfl
  calc tokensL (pyStrip s)
      = tokensL (pyStrip s ++
          ((s.dropWhile isSpaceChar).reverse.takeWhile isSpaceChar).reverse) := by
        rw [tokensL_trailing_ws]
        intro c hc
        rw [List.mem_reverse] at hc
        exact List.mem_takeWhile_imp hc
    _ = tokensL (s.dropWhile isSpaceChar) := by rw [← hdecomp]
    _ = tokensL (s.takeWhile isSpaceChar ++ s.dropWhile isSpaceChar) := by
        rw [tokensL_leading_ws]
        intro c hc
        exact List.mem_takeWhile_imp hc
    _ = tokensL s := by rw [← hu]

theorem tokensL_nil_of_blank (l : Str) (h : pyStrip l = []) : tokensL l = [] := by
  have := (pyStrip_eq_nil_iff l).mp h
  rw [tokensL, tokensAux_flush l this []]
  rfl

theorem pyUpper_eq_nil_iff (s : Str) : pyUpper s = [] ↔ s = [] := by
  constructor
  · intro h
    cases s with
    | nil => rfl
    | cons c r =>
      have hs : pyUpper (c :: r) = pyToUpperChar c ++ pyUpper r := by simp [pyUpper]
      rw [hs] at h
      rcases List.append_eq_nil.mp h with ⟨h1, _⟩
      exact absurd h1 (pyToUpperChar_ne_nil c)
  · intro h; subst h; rfl

theorem tokensAux_nonws_append (u : Str) (hu : ∀ c ∈ u, isSpaceChar c = false) :
    ∀ (rest acc : Str), tokensAux (u ++ rest) acc = tokensAux rest (u.reverse ++ acc) := by
  induction u with
  | nil => intro rest acc; rfl
  | cons c u' ih =>
    intro rest acc
    have hc : isSpaceChar c = false := hu c (by simp)
    show tokensAux (c :: (u' ++ rest)) acc = _
    rw [tokensAux_cons, if_neg (by simp [hc])]
    rw [ih (fun x hx => hu x (by simp [hx])) rest (c :: acc)]
    simp

theorem tokensL_pyUpper (s : Str) : tokensL (pyUpper s) = (tokensL s).map pyUpper := by
  have key : ∀ (s acc : Str),
      tokensAux (pyUpper s) ((pyUpper acc.reverse).reverse) =
        (tokensAux s acc).map pyUpper := by
    intro s
    induction s with
    | nil =>
      intro acc
      rw [show pyUpper [] = [] from rfl, tokensAux_nil, tokensAux_nil]
      by_cases hacc : acc.isEmpty = true
      · have hae : acc = [] := by simpa [List.isEmpty_iff] using hacc
        subst hae
        rfl
      · have hne : acc ≠ [] := by simpa [List.isEmpty_iff] using hacc
        have h1 : ((pyUpper acc.reverse).reverse).isEmpty = false := by
          simp [List.isEmpty_iff, pyUpper_eq_nil_iff, hne]
        rw [h1, if_neg hacc]
        simp
    | cons c r ih =>
      intro acc
      have hsplit : pyUpper (c :: r) = pyToUpperChar c ++ pyUpper r := by simp [pyUpper]
      have hiff : ((pyUpper acc.reverse).reverse).isEmpty = acc.isEmpty := by
        by_cases hacc : acc = []
        · subst hacc; rfl
        · have h2 : acc.isEmpty = false := by
            rw [List.isEmpty_eq_false]; exact hacc
          have h3 : ((pyUpper acc.reverse).reverse).isEmpty = false := by
            rw [List.isEmpty_eq_false]
            simp [pyUpper_eq_nil_iff, hacc]
          rw [h2, h3]
      have ihnil : tokensAux (pyUpper r) [] = (tokensAux r []).map pyUpper := by
        have := ih []
        simpa using this
      by_cases hc : isSpaceChar c = true
      · rw [hsplit, pyToUpperChar_ws hc, List.singleton_append, tokensAux_cons, if_pos hc,
           tokensAux_cons, if_pos hc, hiff]
        by_cases hacc : acc.isEmpty = true
        · rw [if_pos hacc, if_pos hacc, ihnil]
          try simp
        · rw [if_neg hacc, if_neg hacc, ihnil]
          try simp
      · have hcf : isSpaceChar c = false := by simpa using hc
        have hu := pyToUpperChar_not_ws hcf
        rw [hsplit, tokensAux_nonws_append (pyToUpperChar c) hu (pyUpper r) _]
        have hacc' : (pyToUpperChar c).reverse ++ (pyUpper acc.reverse).reverse =
            (pyUpper ((c :: acc).reverse)).reverse := by
          rw [show (c :: acc).reverse = acc.reverse ++ [c] from by simp]
          rw [pyUpper_append, List.reverse_append]
          congr 1
          show (pyToUpperChar c).reverse = (pyUpper [c]).reverse
          simp [pyUpper]
        rw [hacc', ih (c :: acc), tokensAux_cons, if_neg (by simp [hcf])]
        try simp
  have := key s []
  simpa using this

theorem tokensL_pyUpper_map (s : Str) : tokensL (pyUpper s) = (tokensL s).map pyUpper :=
  tokensL_pyUpper s

-- ======================
-- Decomposition of a split-repair match
-- ======================

theorem take_takeWhile_length {α} (p : α → Bool) (l : List α) :
    l.take (l.takeWhile p).length = l.takeWhile p := by
  induction l with
  | nil => rfl
  | cons c r ih =>
    by_cases hc : p c
    · rw [List.takeWhile_cons_of_pos hc]
      simpa [List.take_succ_cons] using ih
    · rw [List.takeWhile_cons_of_neg hc]
      rfl

theorem takeWhile_append_drop_self {α} (p : α → Bool) (l : List α) :
    l = l.takeWhile p ++ l.drop (l.takeWhile p).length := by
  conv_lhs => rw [← List.take_append_drop (l.takeWhile p).length l]
  rw [take_takeWhile_length]

theorem drop_takeWhile_length {α} (p : α → Bool) (l : List α) :
    l.drop (l.takeWhile p).length = l.dropWhile p := by
  induction l with
  | nil => rfl
  | cons c r ih =>
    by_cases hc : p c
    · rw [List.takeWhile_cons_of_pos hc, List.dropWhile_cons_of_pos hc]
      simpa using ih
    · rw [List.takeWhile_cons_of_neg hc, List.dropWhile_cons_of_neg hc]
      rfl

theorem isDigit_not_ws {c : Char} (h : isDigitChar c = true) : isSpaceChar c = false := by
  simp only [isDigitChar, Bool.and_eq_true, decide_eq_true_eq] at h
  simp only [isSpaceChar, Bool.or_eq_false_iff, decide_eq_false_iff_not]
  omega

theorem isAlpha_not_ws {c : Char} (h : isAsciiAlphaCh c = true) : isSpaceChar c = false := by
  simp only [isAsciiAlphaCh, Bool.or_eq_true, Bool.and_eq_true, decide_eq_true_eq] at h
  simp only [isSpaceChar, Bool.or_eq_false_iff, decide_eq_false_iff_not]
  omega

/-- A successful `RE_SPLIT_NUMBER_ENUM` match decomposes the line into the
three groups separated by whitespace runs: leading whitespace, the number
marker, whitespace, the enum marker, whitespace, the content. -/
theorem reSplit_decomp (s g1 g2 g3 : Str)
    (h : reSplitNumberEnum s = some (g1, g2, g3)) :
    ∃ (w0 w1 w2 : Str),
      s = w0 ++ (g1 ++ (w1 ++ (g2 ++ (w2 ++ g3)))) ∧
      (∀ c ∈ w0, isSpaceChar c = true) ∧
      (∀ c ∈ w1, isSpaceChar c = true) ∧ w1 ≠ [] ∧
      (∀ c ∈ w2, isSpaceChar c = true) ∧ w2 ≠ [] ∧
      (∀ c ∈ g1, isSpaceChar c = false) ∧ g1 ≠ [] ∧
      (∀ c ∈ g2, isSpaceChar c = false) ∧ g2 ≠ [] := by
  unfold reSplitNumberEnum at h
  dsimp only at h
  split at h
  · exact absurd h (by simp)
  · next hds =>
    split at h
    · next r1 heq1 =>
      split at h
      · exact absurd h (by simp)
      · next hws1 =>
        split at h
        · next r3 heq2 =>
          split at h
          · next r4 heq3 =>
            split at h
            · next hbody =>
              split at h
              · exact absurd h (by simp)
              · next hws2 =>
                simp only [Option.some.injEq, Prod.mk.injEq] at h
                obtain ⟨hg1, hg2, hg3⟩ := h
                -- Names for the pieces
                set t := s.dropWhile isSpaceChar with ht
                set ds := t.takeWhile isDigitChar with hds'
                set ws1 := r1.takeWhile isSpaceChar with hws1'
                set body := r3.takeWhile (fun c => decide (c ≠ ')')) with hbody'
                set ws2 := r4.takeWhile isSpaceChar with hws2'
                refine ⟨s.takeWhile isSpaceChar, ws1, ws2, ?_, ?_, ?_, ?_, ?_, ?_, ?_, ?_, ?_, ?_⟩
                · -- the decomposition of s
                  conv_lhs => rw [takeWhile_append_drop_self isSpaceChar s]
                  rw [show s.drop (s.takeWhile isSpaceChar).length = t from by
                    rw [ht, drop_takeWhile_length]]
                  congr 1
                  have hta : t = ds ++ ('.' :: r1) := by
                    conv_lhs => rw [takeWhile_append_drop_self isDigitChar t]
                    rw [← hds', heq1]
                  have hr1 : r1 = ws1 ++ ('(' :: r3) := by
                    conv_lhs => rw [takeWhile_append_drop_self isSpaceChar r1]
                    rw [← hws1', heq2]
                  have hr3 : r3 = body ++ (')' :: r4) := by
                    conv_lhs =>
                      rw [takeWhile_append_drop_self (fun c => decide (c ≠ ')')) r3]
                    rw [← hbody', heq3]
                  have hr4 : r4 = ws2 ++ g3 := by
                    conv_lhs => rw [takeWhile_append_drop_self isSpaceChar r4]
                    rw [← hws2', hg3]
                  rw [hta, hr1, hr3, hr4, ← hg1, ← hg2]
                  simp
                · intro c hc; exact List.mem_takeWhile_imp hc
                · intro c hc; exact List.mem_takeWhile_imp hc
                · simpa [List.isEmpty_iff] using hws1
                · intro c hc; exact List.mem_takeWhile_imp hc
                · simpa [List.isEmpty_iff] using hws2
                · intro c hc
                  rw [← hg1] at hc
                  rcases List.mem_append.mp hc with h1 | h1
                  · exact isDigit_not_ws (List.mem_takeWhile_imp h1)
                  · simp only [List.mem_singleton] at h1
                    subst h1; decide
                · rw [← hg1]; simp
                · intro c hc
                  rw [← hg2] at hc
                  simp only [List.mem_cons] at hc
                  rcases hc with rfl | h1
                  · decide
                  · rcases List.mem_append.mp h1 with h2 | h2
                    · simp only [Bool.and_eq_true] at hbody
                      exact isAlpha_not_ws (List.all_eq_true.mp hbody.1 c h2)
                    · simp only [List.mem_singleton] at h2
                      subst h2; decide
                · rw [← hg2]; simp
            · exact absurd h (by simp)
          · exact absurd h (by simp)
        · exact absurd h (by simp)
    · exact absurd h (by simp)

theorem tokensL_joinLines (ls : List Str) :
    tokensL (joinLines ls) = (ls.map tokensL).flatten := by
  induction ls with
  | nil => rfl
  | cons l rest ih =>
    cases rest with
    | nil => simp [joinLines]
    | cons l2 rest2 =>
      have : joinLines (l :: l2 :: rest2) = l ++ '\n' :: joinLines (l2 :: rest2) := by
        simp [joinLines]
      rw [this, tokensL, tokensAux_ws_append l _ '\n' (by decide) []]
      rw [show tokensAux l [] = tokensL l from rfl, ih]
      simp

-- ======================
-- Record texts stay nonempty, stripped and line-end free
-- ======================

theorem splitlinesAux_noNL : ∀ (s acc : Str), (∀ c ∈ acc, c ≠ '\n' ∧ c ≠ '\r') →
    ∀ l ∈ splitlinesAux s acc, noNL l := by
  intro s acc
  induction s, acc using splitlinesAux.induct with
  | case1 acc hacc0 =>
    intro hacc l hl
    rw [show splitlinesAux [] acc = if acc.isEmpty then [] else [acc.reverse] from rfl,
        if_pos hacc0] at hl
    simp at hl
  | case2 acc hacc0 =>
    intro hacc l hl
    rw [show splitlinesAux [] acc = if acc.isEmpty then [] else [acc.reverse] from rfl,
        if_neg hacc0] at hl
    simp only [List.mem_singleton] at hl
    subst hl
    intro c hc
    exact hacc c (List.mem_reverse.mp hc)
  | case3 rest acc ih =>
    intro hacc l hl
    rw [show splitlinesAux ('\n' :: rest) acc = acc.reverse :: splitlinesAux rest []
        from rfl] at hl
    rcases List.mem_cons.mp hl with rfl | hl
    · intro c hc; exact hacc c (List.mem_reverse.mp hc)
    · exact ih (by simp) l hl
  | case4 rest acc ih =>
    intro hacc l hl
    rw [show splitlinesAux ('\r' :: '\n' :: rest) acc = acc.reverse :: splitlinesAux rest []
        from rfl] at hl
    rcases List.mem_cons.mp hl with rfl | hl
    · intro c hc; exact hacc c (List.mem_reverse.mp hc)
    · exact ih (by simp) l hl
  | case5 rest acc hne ih =>
    intro hacc l hl
    have heq : splitlinesAux ('\r' :: rest) acc = acc.reverse :: splitlinesAux rest [] := by
      cases rest with
      | nil => rfl
      | cons d rest2 =>
        have hd : d ≠ '\n' := fun hdeq => hne rest2 (by rw [hdeq])
        simp [splitlinesAux, hd]
    rw [heq] at hl
    rcases List.mem_cons.mp hl with rfl | hl
    · intro c hc; exact hacc c (List.mem_reverse.mp hc)
    · exact ih (by simp) l hl
  | case6 c rest acc h1 h2 h3 ih =>
    intro hacc l hl
    have hc1 : c ≠ '\n' := fun h => h1 h
    have hc3 : c ≠ '\r' := fun h => h3 h
    have heq : splitlinesAux (c :: rest) acc = splitlinesAux rest (c :: acc) := by
      simp [splitlinesAux, hc1, hc3]
    rw [heq] at hl
    refine ih ?_ l hl
    intro d hd
    rcases List.mem_cons.mp hd with rfl | hd
    · exact ⟨hc1, hc3⟩
    · exact hacc d hd

theorem splitlinesL_noNL (s : Str) : ∀ l ∈ splitlinesL s, noNL l :=
  splitlinesAux_noNL s [] (by simp)

theorem pyStrip_subset (s : Str) : ∀ c ∈ pyStrip s, c ∈ s := by
  intro c hc
  unfold pyStrip at hc
  rw [List.mem_reverse] at hc
  have h2 := List.dropWhile_subset _ hc
  rw [List.mem_reverse] at h2
  exact List.dropWhile_subset _ h2

theorem noNL_of_subset {a b : Str} (h : ∀ c ∈ a, c ∈ b) (hb : noNL b) : noNL a :=
  fun c hc => hb c (h c hc)

theorem getLast?_append_of_ne_nil {α} (x y : List α) {c : α}
    (h : y.getLast? = some c) : (x ++ y).getLast? = some c := by
  rw [List.getLast?_append, h]
  rfl

/-- On a stripped line, the content group of a split-repair match does not
strip to nothing. -/
theorem reSplit_content_ne_nil (line : Str) (g1 g2 g3 : Str)
    (h : reSplitNumberEnum (pyStrip line) = some (g1, g2, g3)) :
    pyStrip g3 ≠ [] := by
  intro h0
  have hall : ∀ c ∈ g3, isSpaceChar c = true := (pyStrip_eq_nil_iff g3).mp h0
  obtain ⟨w0, w1, w2, hdec, hw0, hw1, hw1n, hw2, hw2n, hg1, hg1n, hg2, hg2n⟩ :=
    reSplit_decomp _ _ _ _ h
  have htail : w2 ++ g3 ≠ [] := by
    intro hx
    exact hw2n (List.append_eq_nil.mp hx).1
  obtain ⟨c, hc⟩ : ∃ c, (w2 ++ g3).getLast? = some c := by
    cases hg : (w2 ++ g3).getLast? with
    | none => exact absurd (List.getLast?_eq_none_iff.mp hg) htail
    | some c => exact ⟨c, rfl⟩
  have hws : isSpaceChar c = true := by
    have hmem : c ∈ w2 ++ g3 := List.mem_of_mem_getLast? (by rw [hc]; rfl)
    rcases List.mem_append.mp hmem with hm | hm
    · exact hw2 c hm
    · exact hall c hm
  have hlast : (pyStrip line).getLast? = some c := by
    rw [hdec]
    exact getLast?_append_of_ne_nil _ _ (getLast?_append_of_ne_nil _ _
      (getLast?_append_of_ne_nil _ _ (getLast?_append_of_ne_nil _ _ hc)))
  have := pyStrip_getLast?_not line c hlast
  rw [hws] at this
  cases this

theorem buildStep_good (i : Nat) (line : Str) (last : Option LineType)
    (hline : noNL line) :
    ∀ r ∈ (buildStep i line last).1, goodText r := by
  intro r hr
  have hnlstrip : noNL (pyStrip line) := noNL_of_subset (pyStrip_subset line) hline
  unfold buildStep at hr
  dsimp only at hr
  by_cases hs : (pyStrip line).isEmpty = true
  · rw [if_pos hs] at hr
    simp at hr
  · rw [if_neg hs] at hr
    cases hsp : reSplitNumberEnum (pyStrip line) with
    | some g =>
      obtain ⟨g1, g2, g3⟩ := g
      rw [hsp] at hr
      obtain ⟨w0, w1, w2, hdec, hw0, hw1, hw1n, hw2, hw2n, hg1, hg1n, hg2, hg2n⟩ :=
        reSplit_decomp _ _ _ _ hsp
      have hg1mem : ∀ c ∈ g1, c ∈ pyStrip line := by
        intro c hc; rw [hdec]; simp [hc]
      have hg2mem : ∀ c ∈ g2, c ∈ pyStrip line := by
        intro c hc; rw [hdec]; simp [hc]
      have hg3mem : ∀ c ∈ g3, c ∈ pyStrip line := by
        intro c hc; rw [hdec]; simp [hc]
      have hsg1 : pyStrip g1 = g1 := pyStrip_of_no_ws g1 hg1
      have hsg2 : pyStrip g2 = g2 := pyStrip_of_no_ws g2 hg2
      have hg3ne : pyStrip g3 ≠ [] := reSplit_content_ne_nil line g1 g2 g3 hsp
      simp only [List.mem_cons, List.not_mem_nil, or_false] at hr
      rcases hr with rfl | rfl
      · refine ⟨by simp [hsg1, hg1n], by simp [hsg1, pyStrip_idem], ?_⟩
        intro c hc
        simp only at hc
        rw [hsg1] at hc
        exact hnlstrip c (hg1mem c hc)
      · refine ⟨by simp, ?_, ?_⟩
        · exact pyStrip_append_sep _ _ (pyStrip_idem g2) (pyStrip_idem g3)
            (by rw [hsg2]; exact hg2n) hg3ne
        · intro c hc
          simp only at hc
          rcases List.mem_append.mp hc with hm | hm
          · rw [hsg2] at hm
            exact hnlstrip c (hg2mem c hm)
          · rcases List.mem_cons.mp hm with rfl | hm
            · exact ⟨by decide, by decide⟩
            · exact hnlstrip c (hg3mem c (pyStrip_subset g3 c hm))
    | none =>
      rw [hsp] at hr
      dsimp only at hr
      split at hr
      · simp at hr
      · simp only [List.mem_singleton] at hr
        subst hr
        refine ⟨?_, pyStrip_idem line, hnlstrip⟩
        simpa [List.isEmpty_iff] using hs

theorem buildRecordsAux_good (lines : List Str) (hli : ∀ l ∈ lines, noNL l) :
    ∀ (i : Nat) (last : Option LineType), ∀ r ∈ buildRecordsAux lines i last, goodText r := by
  induction lines with
  | nil => intro i last r hr; simp [buildRecordsAux] at hr
  | cons l ls ih =>
    intro i last r hr
    rw [show buildRecordsAux (l :: ls) i last =
          (buildStep i l last).1 ++ buildRecordsAux ls (i + 1) (buildStep i l last).2
        from rfl] at hr
    rcases List.mem_append.mp hr with hm | hm
    · exact buildStep_good i l last (hli l (by simp)) r hm
    · exact ih (fun x hx => hli x (by simp [hx])) (i + 1) _ r hm

theorem buildRecords_good (raw : Str) : goodTexts (buildRecords (splitlinesL raw)) := by
  intro r hr
  exact buildRecordsAux_good _ (splitlinesL_noNL raw) 0 none r hr


theorem goodText_text_eq {r s : Record} (h : r.text = s.text) (hg : goodText r) :
    goodText s := by
  obtain ⟨h1, h2, h3⟩ := hg
  exact ⟨h ▸ h1, h ▸ h2, h ▸ h3⟩

theorem goodText_merge {cur nxt : Record} (hc : goodText cur) (hn : goodText nxt)
    (r : Record) (h : r.text = cur.text ++ ' ' :: nxt.text) : goodText r := by
  obtain ⟨hc1, hc2, hc3⟩ := hc
  obtain ⟨hn1, hn2, hn3⟩ := hn
  refine ⟨?_, ?_, ?_⟩
  · rw [h]; simp
  · rw [h]; exact pyStrip_append_sep _ _ hc2 hn2 hc1 hn1
  · rw [h]
    intro c hcm
    rcases List.mem_append.mp hcm with hm | hm
    · exact hc3 c hm
    · rcases List.mem_cons.mp hm with rfl | hm
      · exact ⟨by decide, by decide⟩
      · exact hn3 c hm

theorem markerMergeStep_good (recs : List Record) (i : Nat) (h : goodTexts recs) :
    goodTexts (markerMergeStep recs i).1 := by
  unfold markerMergeStep
  dsimp only
  repeat' split
  all_goals try exact h
  rename_i x2 cur hcur hnm hmk x1 j hfind x0 nxt hget hcond
  intro r hr
  rcases List.mem_or_eq_of_mem_set hr with hr2 | rfl
  · rcases List.mem_or_eq_of_mem_set hr2 with hr3 | rfl
    · exact h r hr3
    · exact goodText_text_eq rfl (h nxt (List.getElem?_mem hget))
  · exact goodText_merge (h cur (List.getElem?_mem hcur)) (h nxt (List.getElem?_mem hget))
      _ rfl

theorem headingMergeStep_good (recs : List Record) (i : Nat) (h : goodTexts recs) :
    goodTexts (headingMergeStep recs i).1 := by
  unfold headingMergeStep
  dsimp only
  repeat' split
  all_goals try exact h
  rename_i x2 cur hcur hflags hkeyid x1 j hfind x0 desc hget hskip hsm htype
  intro r hr
  rcases List.mem_or_eq_of_mem_set hr with hr2 | rfl
  · rcases List.mem_or_eq_of_mem_set hr2 with hr3 | rfl
    · exact h r hr3
    · exact goodText_text_eq rfl (h desc (List.getElem?_mem hget))
  · exact goodText_merge (h cur (List.getElem?_mem hcur)) (h desc (List.getElem?_mem hget))
      _ rfl

theorem markerMergeLoopF_good (fuel : Nat) :
    ∀ (recs : List Record) (i : Nat), goodTexts recs →
      goodTexts (markerMergeLoopF fuel recs i) := by
  induction fuel with
  | zero => intro recs i h; exact h
  | succ fuel ih =>
    intro recs i h
    rw [show markerMergeLoopF (fuel + 1) recs i =
          if i < recs.length then
            markerMergeLoopF fuel (markerMergeStep recs i).1 (markerMergeStep recs i).2
          else recs from rfl]
    split
    · exact ih _ _ (markerMergeStep_good recs i h)
    · exact h

theorem headingMergeLoopF_good (fuel : Nat) :
    ∀ (recs : List Record) (i : Nat), goodTexts recs →
      goodTexts (headingMergeLoopF fuel recs i) := by
  induction fuel with
  | zero => intro recs i h; exact h
  | succ fuel ih =>
    intro recs i h
    rw [show headingMergeLoopF (fuel + 1) recs i =
          if i < recs.length then
            headingMergeLoopF fuel (headingMergeStep recs i).1 (headingMergeStep recs i).2
          else recs from rfl]
    split
    · exact ih _ _ (headingMergeStep_good recs i h)
    · exact h

theorem alignedRecords_good (raw : Str) : goodTexts (alignedRecords raw) := by
  unfold alignedRecords headingMergePass markerMergePass
  exact headingMergeLoopF_good _ _ _ (markerMergeLoopF_good _ _ _ (buildRecords_good raw))

/-- The wellformedness of an output line: blank, or nonempty, stripped and
line-end free. -/
def goodLine (l : Str) : Prop := l = [] ∨ (l ≠ [] ∧ pyStrip l = l ∧ noNL l)

theorem goodLine_pyUpper (t : Str) (h1 : t ≠ []) (h2 : pyStrip t = t) (h3 : noNL t) :
    goodLine (pyUpper t) := by
  right
  refine ⟨by simp [pyUpper_eq_nil_iff, h1], ?_, ?_⟩
  · apply pyStrip_eq_self
    · intro c hc
      obtain ⟨t0, t', rfl⟩ : ∃ t0 t', t = t0 :: t' := by
        cases t with
        | nil => exact absurd rfl h1
        | cons a b => exact ⟨a, b, rfl⟩
      have hsplit : pyUpper (t0 :: t') = pyToUpperChar t0 ++ pyUpper t' := by simp [pyUpper]
      rw [hsplit, List.head?_append] at hc
      have ht0 : isSpaceChar t0 = false := by
        have := pyStrip_head?_not (t0 :: t') t0 (by rw [h2]; rfl)
        exact this
      cases hu : (pyToUpperChar t0).head? with
      | none =>
        exact absurd (List.head?_eq_none_iff.mp hu) (pyToUpperChar_ne_nil t0)
      | some d =>
        rw [hu] at hc
        simp only [Option.or_some, Option.some.injEq] at hc
        rw [← hc]
        exact pyToUpperChar_not_ws ht0 d (List.mem_of_mem_head? (by rw [hu]; rfl))
    · intro c hc
      have hdecomp : t = t.dropLast ++ [t.getLast h1] := by
        rw [List.dropLast_append_getLast h1]
      have htl : isSpaceChar (t.getLast h1) = false := by
        apply pyStrip_getLast?_not t _ (by rw [h2, List.getLast?_eq_getLast t h1])
      rw [hdecomp, pyUpper_append] at hc
      have hup : pyUpper [t.getLast h1] = pyToUpperChar (t.getLast h1) := by simp [pyUpper]
      rw [hup, List.getLast?_append] at hc
      cases hu : (pyToUpperChar (t.getLast h1)).getLast? with
      | none =>
        exact absurd (List.getLast?_eq_none_iff.mp hu) (pyToUpperChar_ne_nil _)
      | some d =>
        rw [hu] at hc
        simp only [Option.or_some, Option.some.injEq] at hc
        rw [← hc]
        exact pyToUpperChar_not_ws htl d (List.mem_of_mem_getLast? (by rw [hu]; rfl))
  · intro c hc
    rcases List.mem_flatten.mp hc with ⟨u, hu, hcu⟩
    rcases List.mem_map.mp hu with ⟨c0, hc0, rfl⟩
    by_cases hws : isSpaceChar c0 = true
    · rw [pyToUpperChar_ws hws] at hcu
      simp only [List.mem_singleton] at hcu
      rw [hcu]
      exact h3 c0 hc0
    · have := pyToUpperChar_not_ws (by simpa using hws) c hcu
      constructor
      · intro hcn; subst hcn; exact absurd this (by decide)
      · intro hcn; subst hcn; exact absurd this (by decide)

theorem dropTrailingBlanks_subset (out : List Str) :
    ∀ l ∈ dropTrailingBlanks out, l ∈ out := by
  intro l hl
  unfold dropTrailingBlanks at hl
  rw [List.mem_reverse] at hl
  have := List.dropWhile_subset _ hl
  rwa [List.mem_reverse] at this

theorem ensure_blank_subset (out : List Str) (n : Nat) :
    ∀ l ∈ ensure_blank_lines_before out n, l ∈ out ∨ l = [] := by
  intro l hl
  unfold ensure_blank_lines_before at hl
  dsimp only at hl
  split at hl
  · rcases List.mem_append.mp hl with hm | hm
    · exact Or.inl (dropTrailingBlanks_subset out l hm)
    · exact Or.inr (List.eq_of_mem_replicate hm)
  · exact Or.inl (dropTrailingBlanks_subset out l hl)

theorem emitStep_good (acc : List Str × Option LineType) (r : Record)
    (hacc : ∀ l ∈ acc.1, goodLine l) (hr : goodText r) :
    ∀ l ∈ (emitStep acc r).1, goodLine l := by
  unfold emitStep
  dsimp only
  split
  · exact hacc
  · intro l hl
    obtain ⟨hr1, hr2, hr3⟩ := hr
    have hup : goodLine (pyUpper r.text) := goodLine_pyUpper r.text hr1 hr2 hr3
    have hplain : goodLine r.text := Or.inr ⟨hr1, hr2, hr3⟩
    have hblank : goodLine ([] : Str) := Or.inl rfl
    have hens : ∀ (n : Nat) (x : Str), x ∈ ensure_blank_lines_before acc.1 n → goodLine x := by
      intro n x hx
      rcases ensure_blank_subset acc.1 n x hx with hm | rfl
      · exact hacc x hm
      · exact hblank
    split at hl
    all_goals try split at hl
    all_goals
      first
        | exact hacc l hl
        | (rcases List.mem_append.mp hl with hm | hm
           · first
             | exact hens _ _ hm
             | exact hacc l hm
           · simp only [List.mem_singleton] at hm
             subst hm
             first | exact hup | exact hplain | exact hblank)

theorem renderOutput_good (recs : List Record) (h : goodTexts recs) :
    ∀ l ∈ renderOutput recs, goodLine l := by
  unfold renderOutput
  have key : ∀ (rs : List Record) (acc : List Str × Option LineType),
      (∀ r ∈ rs, goodText r) → (∀ l ∈ acc.1, goodLine l) →
      ∀ l ∈ (rs.foldl emitStep acc).1, goodLine l := by
    intro rs
    induction rs with
    | nil => intro acc _ hacc; exact hacc
    | cons r rs ih =>
      intro acc hrs hacc
      rw [List.foldl_cons]
      exact ih (emitStep acc r) (fun x hx => hrs x (by simp [hx]))
        (emitStep_good acc r hacc (hrs r (by simp)))
  exact key recs ([], none) h (by simp)

-- ======================
-- Lines of the final output
-- ======================

theorem splitlinesAux_noNL_line (l : Str) (hl : noNL l) :
    ∀ acc, splitlinesAux l acc =
      if (acc.isEmpty && l.isEmpty) = true then [] else [acc.reverse ++ l] := by
  induction l with
  | nil =>
    intro acc
    rw [show splitlinesAux [] acc = if acc.isEmpty then [] else [acc.reverse] from rfl]
    by_cases hacc : acc.isEmpty = true
    · simp [hacc]
    · simp [hacc]
  | cons c r ih =>
    intro acc
    obtain ⟨hc1, hc2⟩ := hl c (by simp)
    rw [show splitlinesAux (c :: r) acc = splitlinesAux r (c :: acc) from
          by simp [splitlinesAux, hc1, hc2]]
    rw [ih (fun x hx => hl x (by simp [hx])) (c :: acc)]
    simp

theorem splitlinesAux_newline_split (l : Str) (hl : noNL l) :
    ∀ (rest acc : Str), splitlinesAux (l ++ '\n' :: rest) acc =
      (acc.reverse ++ l) :: splitlinesAux rest [] := by
  induction l with
  | nil =>
    intro rest acc
    rw [List.nil_append,
        show splitlinesAux ('\n' :: rest) acc = acc.reverse :: splitlinesAux rest [] from rfl]
    simp
  | cons c l2 ih =>
    intro rest acc
    obtain ⟨hc1, hc2⟩ := hl c (by simp)
    rw [List.cons_append,
        show splitlinesAux (c :: (l2 ++ '\n' :: rest)) acc =
          splitlinesAux (l2 ++ '\n' :: rest) (c :: acc) from
          by simp [splitlinesAux, hc1, hc2]]
    rw [ih (fun x hx => hl x (by simp [hx])) rest (c :: acc)]
    simp

theorem mem_splitlines_joinLines (ls : List Str) (hnl : ∀ l ∈ ls, noNL l) :
    ∀ x ∈ splitlinesL (joinLines ls), x ∈ ls := by
  induction ls with
  | nil => intro x hx; simp [joinLines, splitlinesL, splitlinesAux] at hx
  | cons l rest ih =>
    intro x hx
    cases rest with
    | nil =>
      rw [show joinLines [l] = l from by simp [joinLines]] at hx
      rw [splitlinesL, splitlinesAux_noNL_line l (hnl l (by simp)) []] at hx
      split at hx
      · simp at hx
      · simp only [List.reverse_nil, List.nil_append, List.mem_singleton] at hx
        simp [hx]
    | cons l2 rest2 =>
      rw [show joinLines (l :: l2 :: rest2) = l ++ '\n' :: joinLines (l2 :: rest2) from
            by simp [joinLines]] at hx
      rw [splitlinesL, splitlinesAux_newline_split l (hnl l (by simp)) _ []] at hx
      rcases List.mem_cons.mp hx with rfl | hx2
    -- wait x = [].reverse ++ l
      · simp
      · have := ih (fun y hy => hnl y (by simp [hy])) x hx2
        simp [this]

/-- Claim C10: every line of the output string is either empty or equal to
its own strip — record texts are stripped at creation, merges join stripped
texts with one space, and the formatter only upper-cases. -/
theorem C10_output_lines :
    ∀ (raw : String) (l : Str),
      l ∈ splitlinesL (process_text_alignment raw).data →
      l = [] ∨ pyStrip l = l := by
  intro raw l hl
  have hout : ∀ x ∈ renderOutput (alignedRecords raw.data), goodLine x :=
    renderOutput_good _ (alignedRecords_good raw.data)
  have hnl : ∀ x ∈ renderOutput (alignedRecords raw.data), noNL x := by
    intro x hx
    rcases hout x hx with rfl | ⟨_, _, h3⟩
    · intro c hc; simp at hc
    · exact h3
  have hl2 : l ∈ splitlinesL (joinLines (renderOutput (alignedRecords raw.data))) := hl
  have hmem : l ∈ renderOutput (alignedRecords raw.data) :=
    mem_splitlines_joinLines _ hnl l hl2
  rcases hout l hmem with rfl | ⟨_, h2, _⟩
  · exact Or.inl rfl
  · exact Or.inr h2

theorem C10_witness : ("PART I".data : Str) = [] ∨ pyStrip "PART I".data = "PART I".data :=
  C10_output_lines "PART I" "PART I".data (by decide)

-- ======================
-- Forced blank lines at the start of the output
-- ======================

theorem dropWhile_append_cons_not {α} (p : α → Bool) (xs ys : List α) (y : α)
    (hy : p y = false) :
    List.dropWhile p (xs ++ y :: ys) = xs.dropWhile p ++ y :: ys := by
  induction xs with
  | nil =>
    rw [List.nil_append, List.dropWhile_cons_of_neg (by simp [hy])]
    rfl
  | cons x xs ih =>
    by_cases hx : p x
    · rw [List.cons_append, List.dropWhile_cons_of_pos hx, List.dropWhile_cons_of_pos hx, ih]
    · rw [List.cons_append, List.dropWhile_cons_of_neg hx, List.dropWhile_cons_of_neg hx]
      rfl

theorem dropTrailingBlanks_append_nonblank (pre : List Str) (t : Str) (B : List Str)
    (ht : lineIsBlankStr t = false) :
    dropTrailingBlanks (pre ++ t :: B) = pre ++ t :: dropTrailingBlanks B := by
  unfold dropTrailingBlanks
  have h1 : (pre ++ t :: B).reverse = B.reverse ++ t :: pre.reverse := by simp
  rw [h1, dropWhile_append_cons_not _ _ _ _ ht]
  simp

theorem ensure_blank_pre (t : Str) (ht : lineIsBlankStr t = false) (s : List Str) (n : Nat) :
    ensure_blank_lines_before ([] :: [] :: t :: s) n =
      [] :: [] :: t :: (dropTrailingBlanks s ++ List.replicate n []) := by
  unfold ensure_blank_lines_before
  dsimp only
  have hd : dropTrailingBlanks ([] :: [] :: t :: s) = [] :: [] :: t :: dropTrailingBlanks s := by
    have h2 := dropTrailingBlanks_append_nonblank [[], []] t s ht
    simpa using h2
  rw [hd, if_pos (by simp)]
  simp

theorem emitStep_pre (t : Str) (ht : lineIsBlankStr t = false)
    (acc : List Str × Option LineType) (r : Record)
    (h : ∃ s, acc.1 = [] :: [] :: t :: s) :
    ∃ s2, (emitStep acc r).1 = [] :: [] :: t :: s2 := by
  obtain ⟨s, hs⟩ := h
  unfold emitStep
  dsimp only
  split
  · exact ⟨s, hs⟩
  · split
    all_goals try split
    all_goals rw [hs]
    all_goals try rw [ensure_blank_pre t ht]
    all_goals exact ⟨_, rfl⟩

theorem foldl_emit_pre (t : Str) (ht : lineIsBlankStr t = false) :
    ∀ (rs : List Record) (acc : List Str × Option LineType),
      (∃ s, acc.1 = [] :: [] :: t :: s) →
      ∃ s2, (rs.foldl emitStep acc).1 = [] :: [] :: t :: s2 := by
  intro rs
  induction rs with
  | nil => intro acc h; exact h
  | cons r rest ih =>
    intro acc h
    rw [List.foldl_cons]
    exact ih (emitStep acc r) (emitStep_pre t ht acc r h)

theorem renderOutput_pre (recs : List Record) (r : Record)
    (hfind : recs.find? (fun x => !x.merged_into_prev) = some r)
    (hgood : goodTexts recs)
    (hforced : memType r.type forcedTwoTypes = true) :
    ∃ (t : Str) (s : List Str), lineIsBlankStr t = false ∧
      renderOutput recs = [] :: [] :: t :: s := by
  unfold renderOutput
  induction recs with
  | nil => simp [List.find?] at hfind
  | cons rec rest ih =>
    by_cases hp : rec.merged_into_prev = true
    case pos =>
      rw [List.foldl_cons]
      have hfind2 : List.find? (fun x => !x.merged_into_prev) rest = some r := by
        simpa [List.find?_cons, hp] using hfind
      have hskip : emitStep ([], none) rec = ([], none) := by
        unfold emitStep
        dsimp only
        rw [if_pos hp]
      rw [hskip]
      exact ih hfind2 (fun x hx => hgood x (by simp [hx]))
    case neg =>
      have hrr : rec = r := by simpa [List.find?_cons, hp] using hfind
      subst hrr
      have hmerged : rec.merged_into_prev = false := by simpa using hp
      obtain ⟨h1, h2, h3⟩ := hgood rec (by simp)
      have hnb_plain : lineIsBlankStr rec.text = false := by
        unfold lineIsBlankStr
        rw [h2]
        simpa [List.isEmpty_eq_false] using h1
      have hnb_up : lineIsBlankStr (pyUpper rec.text) = false := by
        rcases goodLine_pyUpper rec.text h1 h2 h3 with h0 | ⟨hu1, hu2, _⟩
        · exact absurd h0 (by simp [pyUpper_eq_nil_iff, h1])
        · unfold lineIsBlankStr
          rw [hu2]
          simpa [List.isEmpty_eq_false] using hu1
      have hmem : rec.type ∈ forcedTwoTypes := by simpa [memType] using hforced
      simp only [forcedTwoTypes, List.mem_cons, List.not_mem_nil, or_false] at hmem
      have e2 : ensure_blank_lines_before [] 2 = [[], []] := rfl
      have hstep : ∃ t, lineIsBlankStr t = false ∧
          (emitStep ([], none) rec).1 = [[], [], t] := by
        rcases hmem with h | h | h | h | h
        · refine ⟨pyUpper rec.text, hnb_up, ?_⟩
          unfold emitStep
          dsimp only
          rw [if_neg (by simp [hmerged]), h]
          rfl
        · refine ⟨rec.text, hnb_plain, ?_⟩
          unfold emitStep
          dsimp only
          rw [if_neg (by simp [hmerged]), h]
          rfl
        · refine ⟨pyUpper rec.text, hnb_up, ?_⟩
          unfold emitStep
          dsimp only
          rw [if_neg (by simp [hmerged]), h]
          rfl
        · refine ⟨rec.text, hnb_plain, ?_⟩
          unfold emitStep
          dsimp only
          rw [if_neg (by simp [hmerged]), h]
          rfl
        · refine ⟨rec.text, hnb_plain, ?_⟩
          unfold emitStep
          dsimp only
          rw [if_neg (by simp [hmerged]), h]
          rfl
      obtain ⟨t, htnb, hstep'⟩ := hstep
      rw [List.foldl_cons]
      obtain ⟨s2, hs2⟩ := foldl_emit_pre t htnb rest (emitStep ([], none) rec)
        ⟨[], by rw [hstep']⟩
      exact ⟨t, s2, htnb, hs2⟩

/-- Claim C4 as amended: the blank lines forced before the very first
emitted record are NOT suppressed: whenever the first not-yet-merged record
has a type that forces two blank lines, the output begins with two blank
lines. -/
theorem C4_leading_blanks :
    ∀ (raw : String) (r : Record),
      (alignedRecords raw.data).find? (fun x => !x.merged_into_prev) = some r →
      memType r.type forcedTwoTypes = true →
      (splitlinesL (process_text_alignment raw).data).take 2 = [[], []] := by
  intro raw r hfind hforced
  obtain ⟨t, s, htnb, hout⟩ :=
    renderOutput_pre _ r hfind (alignedRecords_good raw.data) hforced
  show (splitlinesL (processCore raw.data)).take 2 = [[], []]
  unfold processCore
  rw [hout]
  rw [show joinLines ([] :: [] :: t :: s) = '\n' :: '\n' :: joinLines (t :: s) from
        by simp [joinLines]]
  rfl

theorem C4_witness :
    (splitlinesL (process_text_alignment "PART I").data).take 2 = [[], []] :=
  C4_leading_blanks "PART I"
    ⟨"PART I".data, .HEADING_UPPER, 0, false, false, true, false⟩
    (by decide) (by decide)


-- ======================
-- Merge-flag invariants (claim C8)
-- ======================

theorem findNextUnmergedAux_between :
    ∀ (rs : List Record) (j0 j : Nat), findNextUnmergedAux rs j0 = some j →
      j0 ≤ j ∧ ∀ k, j0 ≤ k → k < j → ∀ m, rs[k - j0]? = some m →
        m.merged_into_prev = true := by
  intro rs
  induction rs with
  | nil => intro j0 j h; simp [findNextUnmergedAux] at h
  | cons r rs ih =>
    intro j0 j h
    simp only [findNextUnmergedAux] at h
    by_cases hm : r.merged_into_prev = true
    · rw [if_neg (by simp [hm])] at h
      obtain ⟨h1, h2⟩ := ih (j0 + 1) j h
      refine ⟨by omega, ?_⟩
      intro k hk1 hk2 m hget
      by_cases hkj : k = j0
      · have h0 : k - j0 = 0 := by omega
        rw [h0] at hget
        have hmr : r = m := by simpa using hget
        rw [← hmr]; exact hm
      · have he : k - j0 = (k - (j0 + 1)) + 1 := by omega
        rw [he] at hget
        exact h2 k (by omega) hk2 m (by simpa using hget)
    · have hmf : r.merged_into_prev = false := by simpa using hm
      rw [if_pos (by simp [hmf])] at h
      have hj : j0 = j := by simpa using h
      refine ⟨by omega, ?_⟩
      intro k hk1 hk2 m hget
      exact absurd hk2 (by omega)

theorem findNextUnmerged_between (recs : List Record) (i j : Nat)
    (h : findNextUnmerged recs (i + 1) = some j) :
    i + 1 ≤ j ∧ ∀ k, i + 1 ≤ k → k < j → ∀ m, recs[k]? = some m →
      m.merged_into_prev = true := by
  unfold findNextUnmerged at h
  obtain ⟨h1, h2⟩ := findNextUnmergedAux_between _ _ _ h
  refine ⟨h1, ?_⟩
  intro k hk1 hk2 m hget
  refine h2 k hk1 hk2 m ?_
  rw [List.getElem?_drop]
  have he : i + 1 + (k - (i + 1)) = k := by omega
  rw [he]
  exact hget

theorem markerMergeStep_cases (recs : List Record) (i : Nat) :
    (markerMergeStep recs i).1 = recs ∨
    ∃ (cur nxt : Record) (j : Nat),
      recs[i]? = some cur ∧ cur.merged_into_prev = false ∧
      memType cur.type mergeableMarkerTypes = true ∧
      findNextUnmerged recs (i + 1) = some j ∧ recs[j]? = some nxt ∧
      memType nxt.type nonMergeTypes = false ∧
      (markerMergeStep recs i).1 =
        (recs.set j { nxt with merged_into_prev := true }).set i
          { cur with text := cur.text ++ ' ' :: nxt.text,
                     type := escalate cur.type, consumes_next := true } := by
  unfold markerMergeStep
  dsimp only
  repeat' split
  all_goals try (left; rfl)
  rename_i x2 cur hcur hnm hmk x1 j hfind x0 nxt hget hcond
  right
  refine ⟨cur, nxt, j, hcur, by simpa using hnm, ?_, hfind, hget, ?_, rfl⟩
  · simp only [Bool.and_eq_true] at hmk
    exact hmk.1
  · simp only [Bool.and_eq_true, Bool.not_eq_true'] at hcond
    exact hcond.1

theorem headingMergeStep_cases (recs : List Record) (i : Nat) :
    (headingMergeStep recs i).1 = recs ∨
    ∃ (cur desc : Record) (j : Nat),
      recs[i]? = some cur ∧ cur.merged_into_prev = false ∧ cur.is_heading = true ∧
      findNextUnmerged recs (i + 1) = some j ∧ recs[j]? = some desc ∧
      (desc.type = .REGULAR ∨ desc.type = .ENDS_COLON) ∧
      (headingMergeStep recs i).1 =
        (recs.set j { desc with merged_into_prev := true }).set i
          { cur with text := cur.text ++ ' ' :: desc.text, consumes_next := true } := by
  unfold headingMergeStep
  dsimp only
  repeat' split
  all_goals try (left; rfl)
  rename_i x2 cur hcur hflags hkeyid x1 j hfind x0 desc hget hskip hsm htype
  right
  have hflags2 : cur.merged_into_prev = false ∧ cur.is_heading = true := by
    rcases hb1 : cur.merged_into_prev <;> rcases hb2 : cur.is_heading <;>
      simp [hb1, hb2] at hflags ⊢
  refine ⟨cur, desc, j, hcur, hflags2.1, hflags2.2, hfind, hget, by simpa using htype, rfl⟩

theorem mergeUpdate_inv (allowed : List LineType) (recs recs2 : List Record)
    (i j : Nat) (cur nxt cur2 nxt2 : Record)
    (hi : recs[i]? = some cur) (hj : recs[j]? = some nxt)
    (hcm : cur.merged_into_prev = false)
    (hfind : findNextUnmerged recs (i + 1) = some j)
    (hnc : nxt.consumes_next = false)
    (hc2 : cur2.merged_into_prev = false ∧ cur2.consumes_next = true ∧
           cur2.type ∈ allowed ∧ cur2.is_heading = cur.is_heading)
    (hn2 : nxt2.merged_into_prev = true ∧ nxt2.consumes_next = nxt.consumes_next ∧
           nxt2.type = nxt.type ∧ nxt2.is_heading = nxt.is_heading)
    (hth : cur2.is_heading = true →
           cur2.type = .HEADING_UPPER ∨ cur2.type = .HEADING_TITLE)
    (hr2 : recs2 = (recs.set j nxt2).set i cur2)
    (hinv : mergeInv allowed recs) :
    mergeInv allowed recs2 := by
  obtain ⟨hex, hadj, hcons, hhead⟩ := hinv
  obtain ⟨hc2m, hc2c, hc2t, hc2h⟩ := hc2
  obtain ⟨hn2m, hn2c, hn2t, hn2h⟩ := hn2
  obtain ⟨hij_le, hbet⟩ := findNextUnmerged_between recs i j hfind
  have hilt : i < j := by omega
  have hne : i ≠ j := by omega
  have hilen : i < recs.length := (List.getElem?_eq_some_iff.mp hi).1
  have hjlen : j < recs.length := (List.getElem?_eq_some_iff.mp hj).1
  have hgi : recs2[i]? = some cur2 := by
    rw [hr2, List.getElem?_set_self (by simpa using hilen)]
  have hgj : recs2[j]? = some nxt2 := by
    rw [hr2, List.getElem?_set_ne hne, List.getElem?_set_self hjlen]
  have hgk : ∀ k, k ≠ i → k ≠ j → recs2[k]? = recs[k]? := by
    intro k hki hkj
    rw [hr2, List.getElem?_set_ne (Ne.symm hki), List.getElem?_set_ne (Ne.symm hkj)]
  have hmem2 : ∀ r, r ∈ recs2 → r = cur2 ∨ r = nxt2 ∨ r ∈ recs := by
    intro r hr
    rw [hr2] at hr
    rcases List.mem_or_eq_of_mem_set hr with hr1 | hr1
    · rcases List.mem_or_eq_of_mem_set hr1 with hr3 | hr3
      · exact Or.inr (Or.inr hr3)
      · exact Or.inr (Or.inl hr3)
    · exact Or.inl hr1
  refine ⟨?_, ?_, ?_, ?_⟩
  · intro r hr hand
    rcases hmem2 r hr with rfl | rfl | hr3
    · rw [hc2m] at hand
      exact absurd hand.1 (by decide)
    · rw [hn2c, hnc] at hand
      exact absurd hand.2 (by decide)
    · exact hex r hr3 hand
  · intro j2 r2 hget2 hm2
    by_cases hjj : j2 = j
    · subst hjj
      refine ⟨i, cur2, hilt, hgi, hc2m, hc2c, ?_⟩
      intro k m hik hkj hgetk
      rw [hgk k (by omega) (by omega)] at hgetk
      exact hbet k (by omega) hkj m hgetk
    · by_cases hji : j2 = i
      · subst hji
        rw [hgi] at hget2
        injection hget2 with h7
        rw [← h7, hc2m] at hm2
        exact absurd hm2 (by decide)
      · rw [hgk j2 hji hjj] at hget2
        obtain ⟨i0, c, hi0lt, hgetc, hcm0, hcc0, hbet0⟩ := hadj j2 r2 hget2 hm2
        have hi0j : i0 ≠ j := by
          intro he
          rw [he, hj] at hgetc
          injection hgetc with h7
          rw [← h7, hnc] at hcc0
          exact absurd hcc0 (by decide)
        by_cases hi0i : i0 = i
        · refine ⟨i, cur2, by omega, hgi, hc2m, hc2c, ?_⟩
          intro k m hik hkj hgetk
          by_cases hkj2 : k = j
          · rw [hkj2, hgj] at hgetk
            injection hgetk with h7
            rw [← h7]
            exact hn2m
          · rw [hgk k (by omega) hkj2] at hgetk
            exact hbet0 k m (by omega) hkj hgetk
        · refine ⟨i0, c, hi0lt, ?_, hcm0, hcc0, ?_⟩
          · rw [hgk i0 hi0i hi0j]
            exact hgetc
          · intro k m hik hkj hgetk
            by_cases hkj2 : k = j
            · rw [hkj2, hgj] at hgetk
              injection hgetk with h7
              rw [← h7]
              exact hn2m
            · by_cases hki : k = i
              · have h8 := hbet0 i cur (by omega) (by omega) hi
                rw [hcm] at h8
                exact absurd h8 (by decide)
              · rw [hgk k hki hkj2] at hgetk
                exact hbet0 k m hik hkj hgetk
  · intro r hr hcn
    rcases hmem2 r hr with rfl | rfl | hr3
    · exact hc2t
    · rw [hn2c, hnc] at hcn
      exact absurd hcn (by decide)
    · exact hcons r hr3 hcn
  · intro r hr hih
    rcases hmem2 r hr with rfl | rfl | hr3
    · exact hth hih
    · rw [hn2t]
      rw [hn2h] at hih
      exact hhead nxt (List.getElem?_mem hj) hih
    · exact hhead r hr3 hih

theorem markerMergeStep_inv (recs : List Record) (i : Nat)
    (h : mergeInv consumerTypes1 recs) :
    mergeInv consumerTypes1 (markerMergeStep recs i).1 := by
  rcases markerMergeStep_cases recs i with he | ⟨cur, nxt, j, hi, hcm, hmk, hfind, hj, hnm, he⟩
  · rw [he]; exact h
  · have hnc : nxt.consumes_next = false := by
      by_cases hb : nxt.consumes_next = true
      · have h9 := h.2.2.1 nxt (List.getElem?_mem hj) hb
        simp only [consumerTypes1, List.mem_cons, List.not_mem_nil, or_false] at h9
        rcases h9 with h9 | h9 <;> rw [h9] at hnm <;> exact absurd hnm (by decide)
      · simpa using hb
    have hmem3 : cur.type ∈ mergeableMarkerTypes := by
      simp only [memType, List.any_eq_true, decide_eq_true_eq] at hmk
      obtain ⟨x, hx1, hx2⟩ := hmk
      rw [hx2] at hx1
      exact hx1
    have hta : escalate cur.type ∈ consumerTypes1 := by
      simp only [mergeableMarkerTypes, List.mem_cons, List.not_mem_nil, or_false] at hmem3
      rcases hmem3 with h9 | h9 | h9 <;> rw [h9] <;> decide
    have hth : cur.is_heading = true →
        escalate cur.type = .HEADING_UPPER ∨ escalate cur.type = .HEADING_TITLE := by
      intro hh
      have h9 := h.2.2.2 cur (List.getElem?_mem hi) hh
      simp only [mergeableMarkerTypes, List.mem_cons, List.not_mem_nil, or_false] at hmem3
      rcases h9 with h9 | h9 <;> rcases hmem3 with ha | ha | ha <;> rw [ha] at h9 <;>
        exact absurd h9 (by decide)
    rw [he]
    exact mergeUpdate_inv consumerTypes1 recs _ i j cur nxt
      { cur with text := cur.text ++ ' ' :: nxt.text,
                 type := escalate cur.type, consumes_next := true }
      { nxt with merged_into_prev := true } hi hj hcm hfind hnc
      ⟨hcm, rfl, hta, rfl⟩ ⟨rfl, rfl, rfl, rfl⟩ hth rfl h

theorem headingMergeStep_inv (recs : List Record) (i : Nat)
    (h : mergeInv consumerTypes2 recs) :
    mergeInv consumerTypes2 (headingMergeStep recs i).1 := by
  rcases headingMergeStep_cases recs i with he | ⟨cur, desc, j, hi, hcm, hih, hfind, hj, htype, he⟩
  · rw [he]; exact h
  · have hnc : desc.consumes_next = false := by
      by_cases hb : desc.consumes_next = true
      · have h9 := h.2.2.1 desc (List.getElem?_mem hj) hb
        simp only [consumerTypes2, List.mem_cons, List.not_mem_nil, or_false] at h9
        rcases htype with ht | ht <;>
          (rcases h9 with h9 | h9 | h9 | h9 <;> rw [h9] at ht <;> exact absurd ht (by decide))
      · simpa using hb
    have hcht := h.2.2.2 cur (List.getElem?_mem hi) hih
    have hta : cur.type ∈ consumerTypes2 := by
      rcases hcht with h9 | h9 <;> rw [h9] <;> decide
    rw [he]
    exact mergeUpdate_inv consumerTypes2 recs _ i j cur desc
      { cur with text := cur.text ++ ' ' :: desc.text, consumes_next := true }
      { desc with merged_into_prev := true } hi hj hcm hfind hnc
      ⟨hcm, rfl, hta, rfl⟩ ⟨rfl, rfl, rfl, rfl⟩ (fun _ => hcht) rfl h

theorem markerMergeLoopF_inv :
    ∀ (fuel : Nat) (recs : List Record) (i : Nat),
      mergeInv consumerTypes1 recs →
      mergeInv consumerTypes1 (markerMergeLoopF fuel recs i) := by
  intro fuel
  induction fuel with
  | zero => intro recs i h; exact h
  | succ f ih =>
    intro recs i h
    simp only [markerMergeLoopF]
    split
    · exact ih _ _ (markerMergeStep_inv recs i h)
    · exact h

theorem headingMergeLoopF_inv :
    ∀ (fuel : Nat) (recs : List Record) (i : Nat),
      mergeInv consumerTypes2 recs →
      mergeInv consumerTypes2 (headingMergeLoopF fuel recs i) := by
  intro fuel
  induction fuel with
  | zero => intro recs i h; exact h
  | succ f ih =>
    intro recs i h
    simp only [headingMergeLoopF]
    split
    · exact ih _ _ (headingMergeStep_inv recs i h)
    · exact h

theorem buildStep_flags (i : Nat) (line : Str) (last : Option LineType) :
    ∀ r ∈ (buildStep i line last).1,
      r.merged_into_prev = false ∧ r.consumes_next = false ∧
      (r.is_heading = true → r.type = .HEADING_UPPER ∨ r.type = .HEADING_TITLE) := by
  intro r hr
  unfold buildStep at hr
  dsimp only at hr
  by_cases hs : (pyStrip line).isEmpty = true
  · rw [if_pos hs] at hr
    simp at hr
  · rw [if_neg hs] at hr
    cases hsp : reSplitNumberEnum (pyStrip line) with
    | some g =>
      obtain ⟨g1, g2, g3⟩ := g
      rw [hsp] at hr
      simp only [List.mem_cons, List.not_mem_nil, or_false] at hr
      rcases hr with rfl | rfl
      · exact ⟨rfl, rfl, fun hh => absurd hh (by simp)⟩
      · exact ⟨rfl, rfl, fun hh => absurd hh (by simp)⟩
    | none =>
      rw [hsp] at hr
      dsimp only at hr
      split at hr
      · simp at hr
      · simp only [List.mem_singleton] at hr
        subst hr
        refine ⟨rfl, rfl, ?_⟩
        intro hh
        simpa using hh

theorem buildRecordsAux_flags :
    ∀ (ls : List Str) (i : Nat) (last : Option LineType),
      ∀ r ∈ buildRecordsAux ls i last,
        r.merged_into_prev = false ∧ r.consumes_next = false ∧
        (r.is_heading = true → r.type = .HEADING_UPPER ∨ r.type = .HEADING_TITLE) := by
  intro ls
  induction ls with
  | nil => intro i last r hr; simp [buildRecordsAux] at hr
  | cons l ls ih =>
    intro i last r hr
    rw [show buildRecordsAux (l :: ls) i last =
          (buildStep i l last).1 ++ buildRecordsAux ls (i + 1) (buildStep i l last).2
        from rfl] at hr
    rcases List.mem_append.mp hr with hm | hm
    · exact buildStep_flags i l last r hm
    · exact ih (i + 1) _ r hm

theorem buildRecords_inv (lines : List Str) :
    mergeInv consumerTypes1 (buildRecords lines) := by
  have hf := buildRecordsAux_flags lines 0 none
  refine ⟨?_, ?_, ?_, ?_⟩
  · intro r hr hand
    have h1 := (hf r hr).1
    rw [h1] at hand
    exact absurd hand.1 (by decide)
  · intro j r hget hm
    have h1 := (hf r (List.getElem?_mem hget)).1
    rw [h1] at hm
    exact absurd hm (by decide)
  · intro r hr hc
    have h1 := (hf r hr).2.1
    rw [h1] at hc
    exact absurd hc (by decide)
  · intro r hr hh
    exact (hf r hr).2.2 hh

theorem mergeInv_mono (recs : List Record)
    (h : mergeInv consumerTypes1 recs) : mergeInv consumerTypes2 recs := by
  obtain ⟨h1, h2, h3, h4⟩ := h
  refine ⟨h1, h2, ?_, h4⟩
  intro r hr hc
  have h5 := h3 r hr hc
  simp only [consumerTypes1, List.mem_cons, List.not_mem_nil, or_false] at h5
  rcases h5 with h5 | h5 <;> rw [h5] <;> decide

/-- Claim C8: on the final record list of every input, no record has both
`merged_into_prev` and `consumes_next` set, and every merged-away record is
preceded by a consuming record from which it is separated only by other
merged records: the two flags come in adjacent pairs. -/
theorem C8_flag_pairs :
    ∀ (raw : String),
      flagsExclusive (alignedRecords raw.data) ∧ adjacentPairs (alignedRecords raw.data) := by
  intro raw
  have h : mergeInv consumerTypes2 (alignedRecords raw.data) := by
    unfold alignedRecords headingMergePass markerMergePass
    apply headingMergeLoopF_inv
    apply mergeInv_mono
    apply markerMergeLoopF_inv
    exact buildRecords_inv _
  exact ⟨h.1, h.2.1⟩


-- ======================
-- Token preservation through the merge passes (claim C7)
-- ======================

theorem tokensL_single (u : Str) (hu : ∀ c ∈ u, isSpaceChar c = false) (hn : u ≠ []) :
    tokensL u = [u] := by
  have h2 := tokensAux_nonws_append u hu [] []
  rw [List.append_nil] at h2
  unfold tokensL
  rw [h2, tokensAux_nil, if_neg (by simp [hn])]
  simp

theorem flatten_map_eq_nil {α β : Type} (f : α → List β) :
    ∀ ls : List α, (∀ l ∈ ls, f l = []) → ((ls.map f).flatten) = [] := by
  intro ls
  induction ls with
  | nil => intro h; rfl
  | cons x xs ih =>
    intro h
    simp only [List.map_cons, List.flatten_cons, h x (by simp),
      ih (fun y hy => h y (by simp [hy])), List.append_nil]

theorem findNextUnmergedAux_found :
    ∀ (rs : List Record) (j0 j : Nat), findNextUnmergedAux rs j0 = some j →
      ∃ r, rs[j - j0]? = some r ∧ r.merged_into_prev = false := by
  intro rs
  induction rs with
  | nil => intro j0 j h; simp [findNextUnmergedAux] at h
  | cons r rs ih =>
    intro j0 j h
    simp only [findNextUnmergedAux] at h
    by_cases hm : r.merged_into_prev = true
    · rw [if_neg (by simp [hm])] at h
      obtain ⟨hle, _⟩ := findNextUnmergedAux_between _ _ _ h
      obtain ⟨r2, hr2, hm2⟩ := ih (j0 + 1) j h
      refine ⟨r2, ?_, hm2⟩
      have he : j - j0 = (j - (j0 + 1)) + 1 := by omega
      rw [he]
      simpa using hr2
    · have hmf : r.merged_into_prev = false := by simpa using hm
      rw [if_pos (by simp [hmf])] at h
      have hj : j0 = j := by simpa using h
      refine ⟨r, ?_, hmf⟩
      rw [← hj]
      simp

theorem findNextUnmerged_found (recs : List Record) (i j : Nat)
    (h : findNextUnmerged recs (i + 1) = some j) :
    ∀ m, recs[j]? = some m → m.merged_into_prev = false := by
  intro m hm
  unfold findNextUnmerged at h
  obtain ⟨r, hr, hrm⟩ := findNextUnmergedAux_found _ _ _ h
  obtain ⟨hle, _⟩ := findNextUnmergedAux_between _ _ _ h
  rw [List.getElem?_drop] at hr
  have he : i + 1 + (j - (i + 1)) = j := by omega
  rw [he, hm] at hr
  injection hr with h2
  rw [h2]
  exact hrm

theorem visTokens_cons (r : Record) (rs : List Record) :
    visTokens (r :: rs) =
      (if r.merged_into_prev = true then [] else tokensL r.text) ++ visTokens rs := by
  by_cases h : r.merged_into_prev = true <;>
    simp [visTokens, visTexts, List.filter_cons, h]

theorem visTokens_mask :
    ∀ (rs : List Record) (j : Nat) (nxt nxt2 : Record),
      rs[j]? = some nxt → nxt.merged_into_prev = false →
      (∀ k m, k < j → rs[k]? = some m → m.merged_into_prev = true) →
      nxt2.merged_into_prev = true →
      visTokens rs = tokensL nxt.text ++ visTokens (rs.set j nxt2) := by
  intro rs
  induction rs with
  | nil => intro j nxt nxt2 h; simp at h
  | cons r rs ih =>
    intro j nxt nxt2 hget hnm hbet hn2
    cases j with
    | zero =>
      have hr : r = nxt := by simpa using hget
      rw [show (r :: rs).set 0 nxt2 = nxt2 :: rs from rfl]
      rw [visTokens_cons, visTokens_cons, if_pos hn2, if_neg (by simp [hr, hnm])]
      rw [hr]
      simp
    | succ j2 =>
      have hr_m : r.merged_into_prev = true := hbet 0 r (by omega) (by simp)
      have hrec := ih j2 nxt nxt2 (by simpa using hget) hnm
        (fun k m hk hgetk => hbet (k + 1) m (by omega) (by simpa using hgetk)) hn2
      rw [show (r :: rs).set (j2 + 1) nxt2 = r :: rs.set j2 nxt2 from rfl]
      rw [visTokens_cons, visTokens_cons, if_pos hr_m, hrec]
      simp

theorem visTokens_set_pair :
    ∀ (recs : List Record) (i j : Nat) (cur nxt cur2 nxt2 : Record),
      i < j → recs[i]? = some cur → recs[j]? = some nxt →
      (∀ k m, i < k → k < j → recs[k]? = some m → m.merged_into_prev = true) →
      cur.merged_into_prev = false → nxt.merged_into_prev = false →
      cur2.merged_into_prev = false → nxt2.merged_into_prev = true →
      tokensL cur2.text = tokensL cur.text ++ tokensL nxt.text →
      visTokens ((recs.set j nxt2).set i cur2) = visTokens recs := by
  intro recs
  induction recs with
  | nil => intro i j cur nxt cur2 nxt2 hij hi; simp at hi
  | cons r rs ih =>
    intro i j cur nxt cur2 nxt2 hij hi hj hbet hcm hnm hc2 hn2 htok
    obtain ⟨j2, rfl⟩ : ∃ j2, j = j2 + 1 := ⟨j - 1, by omega⟩
    cases i with
    | zero =>
      have hr : r = cur := by simpa using hi
      rw [show (r :: rs).set (j2 + 1) nxt2 = r :: rs.set j2 nxt2 from rfl]
      rw [show (r :: rs.set j2 nxt2).set 0 cur2 = cur2 :: rs.set j2 nxt2 from rfl]
      rw [visTokens_cons, visTokens_cons, if_neg (by simp [hc2]),
        if_neg (by simp [hr, hcm])]
      have hmask := visTokens_mask rs j2 nxt nxt2 (by simpa using hj) hnm
        (fun k m hk hgetk => hbet (k + 1) m (by omega) (by omega) (by simpa using hgetk)) hn2
      rw [hmask, htok, hr]
      simp
    | succ i2 =>
      rw [show (r :: rs).set (j2 + 1) nxt2 = r :: rs.set j2 nxt2 from rfl]
      rw [show (r :: rs.set j2 nxt2).set (i2 + 1) cur2 =
            r :: (rs.set j2 nxt2).set i2 cur2 from rfl]
      rw [visTokens_cons, visTokens_cons]
      rw [ih i2 j2 cur nxt cur2 nxt2 (by omega) (by simpa using hi) (by simpa using hj)
        (fun k m hk1 hk2 hgetk => hbet (k + 1) m (by omega) (by omega) (by simpa using hgetk))
        hcm hnm hc2 hn2 htok]

theorem markerMergeStep_tokens (recs : List Record) (i : Nat) :
    visTokens (markerMergeStep recs i).1 = visTokens recs := by
  rcases markerMergeStep_cases recs i with he | ⟨cur, nxt, j, hi, hcm, hmk, hfind, hj, hnm, he⟩
  · rw [he]
  · obtain ⟨hle, hbet⟩ := findNextUnmerged_between recs i j hfind
    have hnmerged : nxt.merged_into_prev = false := findNextUnmerged_found recs i j hfind nxt hj
    rw [he]
    exact visTokens_set_pair recs i j cur nxt _ _ (by omega) hi hj
      (fun k m hk1 hk2 hg => hbet k (by omega) hk2 m hg) hcm hnmerged hcm rfl
      (tokensL_append_ws cur.text nxt.text)

theorem headingMergeStep_tokens (recs : List Record) (i : Nat) :
    visTokens (headingMergeStep recs i).1 = visTokens recs := by
  rcases headingMergeStep_cases recs i with he | ⟨cur, desc, j, hi, hcm, hih, hfind, hj, htype, he⟩
  · rw [he]
  · obtain ⟨hle, hbet⟩ := findNextUnmerged_between recs i j hfind
    have hnmerged : desc.merged_into_prev = false := findNextUnmerged_found recs i j hfind desc hj
    rw [he]
    exact visTokens_set_pair recs i j cur desc _ _ (by omega) hi hj
      (fun k m hk1 hk2 hg => hbet k (by omega) hk2 m hg) hcm hnmerged hcm rfl
      (tokensL_append_ws cur.text desc.text)

theorem markerMergeLoopF_tokens :
    ∀ (fuel : Nat) (recs : List Record) (i : Nat),
      visTokens (markerMergeLoopF fuel recs i) = visTokens recs := by
  intro fuel
  induction fuel with
  | zero => intro recs i; rfl
  | succ f ih =>
    intro recs i
    simp only [markerMergeLoopF]
    split
    · rw [ih]
      exact markerMergeStep_tokens recs i
    · rfl

theorem headingMergeLoopF_tokens :
    ∀ (fuel : Nat) (recs : List Record) (i : Nat),
      visTokens (headingMergeLoopF fuel recs i) = visTokens recs := by
  intro fuel
  induction fuel with
  | zero => intro recs i; rfl
  | succ f ih =>
    intro recs i
    simp only [headingMergeLoopF]
    split
    · rw [ih]
      exact headingMergeStep_tokens recs i
    · rfl


theorem identifyCore_ne_BLANK (stripped : Str) (prev : Option LineType)
    (h1 : stripped.isEmpty = false) (h2 : reStandaloneNumber stripped = false) :
    identifyCore stripped prev ≠ .BLANK := by
  unfold identifyCore
  dsimp only
  rw [if_neg (by simp [h1]), if_neg (by simp [h2])]
  generalize (if memStr (pyLower (firstWordL stripped)) ALL_DETECT_KEYWORDS = true
      then bestKeyword stripped else []) = bk
  by_cases hc1 : pyLower stripped = ['p', 'r', 'e', 'a', 'm', 'b', 'l', 'e']
  · rw [if_pos hc1]
    decide
  rw [if_neg hc1]
  by_cases hc2 : (PREAMBLE_INTRO_PHRASES.any fun p => decide (stripped = p)) = true
  · rw [if_pos hc2]
    decide
  rw [if_neg hc2]
  by_cases hc3 : memStr (pyLower stripped) DETECT_TRANSITIONAL_PHRASES_LOWER = true
  · rw [if_pos hc3]
    decide
  rw [if_neg hc3]
  by_cases hc4 : (isPreambleCtx prev &&
      PREAMBLE_CLAUSE_STARTERS.any fun w =>
        startsWithL stripped (w ++ [' ']) && !reEnumItem stripped && !reNumberedItem stripped &&
          !memStr (pyLower (firstWordL stripped)) ALL_DETECT_KEYWORDS) = true
  · rw [if_pos hc4]
    decide
  rw [if_neg hc4]
  repeat' split
  all_goals try decide
  rename_i o2 ht heq
  repeat' split at heq
  all_goals try simp at heq
  all_goals subst heq
  all_goals rename _ = some _ => heq1
  all_goals repeat' split at heq1
  all_goals try simp at heq1
  all_goals subst heq1
  all_goals decide

theorem identifyCore_BLANK_of_standalone (stripped : Str) (prev : Option LineType)
    (h : reStandaloneNumber stripped = true) :
    identifyCore stripped prev = .BLANK := by
  unfold identifyCore
  dsimp only
  by_cases h1 : stripped.isEmpty = true
  · rw [if_pos h1]
  · rw [if_neg h1, if_pos h]

theorem reStandaloneNumber_false_of_reSplit (s : Str) (g : Str × Str × Str)
    (h : reSplitNumberEnum s = some g) : reStandaloneNumber s = false := by
  unfold reSplitNumberEnum at h
  dsimp only at h
  by_cases hds : ((s.dropWhile isSpaceChar).takeWhile isDigitChar).isEmpty = true
  · rw [if_pos hds] at h
    exact absurd h (by simp)
  · rw [if_neg hds] at h
    unfold reStandaloneNumber
    dsimp only
    cases hdrop : (s.dropWhile isSpaceChar).drop
        ((s.dropWhile isSpaceChar).takeWhile isDigitChar).length with
    | nil =>
      rw [hdrop] at h
      simp at h
    | cons c r1 =>
      rw [hdrop] at h
      split at h
      · rename_i r2 heq
        injection heq with hch hrest
        rw [hch]
        have hdot : isSpaceChar '.' = false := by decide
        simp [List.all_cons, hdot]
      · exact absurd h (by simp)

theorem buildStep_visTokens (i : Nat) (line : Str) (last : Option LineType) :
    visTokens (buildStep i line last).1 =
      if keptLine line = true then tokensL line else [] := by
  unfold buildStep
  dsimp only
  by_cases hs : (pyStrip line).isEmpty = true
  · rw [if_pos hs]
    have hk : keptLine line = false := by simp [keptLine, hs]
    simp [visTokens, visTexts, hk]
  · rw [if_neg hs]
    have hs2 : (pyStrip line).isEmpty = false := by simpa using hs
    cases hsp : reSplitNumberEnum (pyStrip line) with
    | some g =>
      obtain ⟨g1, g2, g3⟩ := g
      have hstand : reStandaloneNumber (pyStrip line) = false :=
        reStandaloneNumber_false_of_reSplit _ _ hsp
      have hk : keptLine line = true := by simp [keptLine, hs2, hstand]
      rw [if_pos hk]
      obtain ⟨w0, w1, w2, hdec, hw0, hw1, hw1n, hw2, hw2n, hg1, hg1n, hg2, hg2n⟩ :=
        reSplit_decomp _ _ _ _ hsp
      have hsg1 : pyStrip g1 = g1 := pyStrip_of_no_ws g1 hg1
      have hsg2 : pyStrip g2 = g2 := pyStrip_of_no_ws g2 hg2
      obtain ⟨c1, w1t, rfl⟩ : ∃ c w', w1 = c :: w' := by
        cases w1 with
        | nil => exact absurd rfl hw1n
        | cons c w' => exact ⟨c, w', rfl⟩
      obtain ⟨c2, w2t, rfl⟩ : ∃ c w', w2 = c :: w' := by
        cases w2 with
        | nil => exact absurd rfl hw2n
        | cons c w' => exact ⟨c, w', rfl⟩
      have htok : tokensL line = [g1] ++ ([g2] ++ tokensL g3) := by
        rw [← tokensL_pyStrip, hdec]
        rw [tokensL_leading_ws w0 _ hw0]
        rw [show g1 ++ ((c1 :: w1t) ++ (g2 ++ ((c2 :: w2t) ++ g3))) =
              g1 ++ (c1 :: (w1t ++ (g2 ++ (c2 :: (w2t ++ g3))))) from by simp]
        rw [show tokensL (g1 ++ (c1 :: (w1t ++ (g2 ++ (c2 :: (w2t ++ g3)))))) =
              tokensL g1 ++ tokensL (w1t ++ (g2 ++ (c2 :: (w2t ++ g3)))) from
              tokensAux_ws_append g1 _ c1 (hw1 c1 (by simp)) []]
        rw [tokensL_leading_ws w1t _ (fun x hx => hw1 x (by simp [hx]))]
        rw [show tokensL (g2 ++ (c2 :: (w2t ++ g3))) =
              tokensL g2 ++ tokensL (w2t ++ g3) from
              tokensAux_ws_append g2 _ c2 (hw2 c2 (by simp)) []]
        rw [tokensL_leading_ws w2t _ (fun x hx => hw2 x (by simp [hx]))]
        rw [tokensL_single g1 hg1 hg1n, tokensL_single g2 hg2 hg2n]
      rw [htok]
      rw [show visTokens
            [⟨pyStrip g1, .SPLIT_MARKER_PARENT, i, false, false, false, true⟩,
             ⟨pyStrip g2 ++ ' ' :: pyStrip g3, .ENUM_ITEM, i, false, false, false, true⟩] =
            tokensL (pyStrip g1) ++ (tokensL (pyStrip g2 ++ ' ' :: pyStrip g3) ++ []) from
            by simp [visTokens, visTexts]]
      rw [hsg1, hsg2, tokensL_append_ws, tokensL_pyStrip]
      rw [tokensL_single g1 hg1 hg1n, tokensL_single g2 hg2 hg2n]
      simp
    | none =>
      dsimp only
      split
      · rename_i hbl
        have hstand : reStandaloneNumber (pyStrip line) = true := by
          by_cases hq : reStandaloneNumber (pyStrip line) = true
          · exact hq
          · exact absurd hbl (identifyCore_ne_BLANK _ _ hs2 (by simpa using hq))
        have hk : keptLine line = false := by simp [keptLine, hstand]
        simp [visTokens, visTexts, hk]
      · rename_i hbl
        have hstand : reStandaloneNumber (pyStrip line) = false := by
          by_cases hq : reStandaloneNumber (pyStrip line) = true
          · exact absurd (identifyCore_BLANK_of_standalone _ last hq) hbl
          · simpa using hq
        have hk : keptLine line = true := by simp [keptLine, hs2, hstand]
        rw [if_pos hk]
        simp [visTokens, visTexts, tokensL_pyStrip]

theorem buildRecordsAux_tokens :
    ∀ (ls : List Str) (i : Nat) (last : Option LineType),
      visTokens (buildRecordsAux ls i last) =
        ((ls.filter keptLine).map tokensL).flatten := by
  intro ls
  induction ls with
  | nil => intro i last; rfl
  | cons l ls ih =>
    intro i last
    rw [show buildRecordsAux (l :: ls) i last =
          (buildStep i l last).1 ++ buildRecordsAux ls (i + 1) (buildStep i l last).2
        from rfl]
    rw [show visTokens ((buildStep i l last).1 ++ buildRecordsAux ls (i + 1) (buildStep i l last).2) =
          visTokens (buildStep i l last).1 ++
            visTokens (buildRecordsAux ls (i + 1) (buildStep i l last).2) from
          by simp [visTokens, visTexts]]
    rw [buildStep_visTokens, ih (i + 1)]
    rw [List.filter_cons]
    by_cases hk : keptLine l = true
    · rw [if_pos hk, if_pos hk]
      simp
    · rw [if_neg hk, if_neg hk]
      simp


theorem buildStep_noBlank (i : Nat) (line : Str) (last : Option LineType) :
    ∀ r ∈ (buildStep i line last).1, r.type ≠ .BLANK := by
  intro r hr
  unfold buildStep at hr
  dsimp only at hr
  by_cases hs : (pyStrip line).isEmpty = true
  · rw [if_pos hs] at hr
    simp at hr
  · rw [if_neg hs] at hr
    cases hsp : reSplitNumberEnum (pyStrip line) with
    | some g =>
      obtain ⟨g1, g2, g3⟩ := g
      rw [hsp] at hr
      simp only [List.mem_cons, List.not_mem_nil, or_false] at hr
      rcases hr with rfl | rfl
      · simp
      · simp
    | none =>
      rw [hsp] at hr
      dsimp only at hr
      split at hr
      · simp at hr
      · rename_i hbl
        simp only [List.mem_singleton] at hr
        subst hr
        simpa using hbl

theorem buildRecordsAux_noBlank :
    ∀ (ls : List Str) (i : Nat) (last : Option LineType),
      ∀ r ∈ buildRecordsAux ls i last, r.type ≠ .BLANK := by
  intro ls
  induction ls with
  | nil => intro i last r hr; simp [buildRecordsAux] at hr
  | cons l ls ih =>
    intro i last r hr
    rw [show buildRecordsAux (l :: ls) i last =
          (buildStep i l last).1 ++ buildRecordsAux ls (i + 1) (buildStep i l last).2
        from rfl] at hr
    rcases List.mem_append.mp hr with hm | hm
    · exact buildStep_noBlank i l last r hm
    · exact ih (i + 1) _ r hm

theorem markerMergeStep_noBlank (recs : List Record) (i : Nat)
    (h : ∀ r ∈ recs, r.type ≠ .BLANK) :
    ∀ r ∈ (markerMergeStep recs i).1, r.type ≠ .BLANK := by
  rcases markerMergeStep_cases recs i with he | ⟨cur, nxt, j, hi, hcm, hmk, hfind, hj, hnm, he⟩
  · rw [he]; exact h
  · rw [he]
    intro r hr
    rcases List.mem_or_eq_of_mem_set hr with hr1 | hr1
    · rcases List.mem_or_eq_of_mem_set hr1 with hr2 | hr2
      · exact h r hr2
      · subst hr2
        exact h nxt (List.getElem?_mem hj)
    · subst hr1
      have hmem3 : cur.type ∈ mergeableMarkerTypes := by
        simp only [memType, List.any_eq_true, decide_eq_true_eq] at hmk
        obtain ⟨x, hx1, hx2⟩ := hmk
        rw [hx2] at hx1
        exact hx1
      simp only [mergeableMarkerTypes, List.mem_cons, List.not_mem_nil, or_false] at hmem3
      show escalate cur.type ≠ .BLANK
      rcases hmem3 with h9 | h9 | h9 <;> rw [h9] <;> decide

theorem headingMergeStep_noBlank (recs : List Record) (i : Nat)
    (h : ∀ r ∈ recs, r.type ≠ .BLANK) :
    ∀ r ∈ (headingMergeStep recs i).1, r.type ≠ .BLANK := by
  rcases headingMergeStep_cases recs i with he | ⟨cur, desc, j, hi, hcm, hih, hfind, hj, htype, he⟩
  · rw [he]; exact h
  · rw [he]
    intro r hr
    rcases List.mem_or_eq_of_mem_set hr with hr1 | hr1
    · rcases List.mem_or_eq_of_mem_set hr1 with hr2 | hr2
      · exact h r hr2
      · subst hr2
        exact h desc (List.getElem?_mem hj)
    · subst hr1
      exact h cur (List.getElem?_mem hi)

theorem markerMergeLoopF_noBlank :
    ∀ (fuel : Nat) (recs : List Record) (i : Nat),
      (∀ r ∈ recs, r.type ≠ .BLANK) →
      ∀ r ∈ markerMergeLoopF fuel recs i, r.type ≠ .BLANK := by
  intro fuel
  induction fuel with
  | zero => intro recs i h; exact h
  | succ f ih =>
    intro recs i h
    simp only [markerMergeLoopF]
    split
    · exact ih _ _ (markerMergeStep_noBlank recs i h)
    · exact h

theorem headingMergeLoopF_noBlank :
    ∀ (fuel : Nat) (recs : List Record) (i : Nat),
      (∀ r ∈ recs, r.type ≠ .BLANK) →
      ∀ r ∈ headingMergeLoopF fuel recs i, r.type ≠ .BLANK := by
  intro fuel
  induction fuel with
  | zero => intro recs i h; exact h
  | succ f ih =>
    intro recs i h
    simp only [headingMergeLoopF]
    split
    · exact ih _ _ (headingMergeStep_noBlank recs i h)
    · exact h

theorem alignedRecords_noBlank (raw : Str) :
    ∀ r ∈ alignedRecords raw, r.type ≠ .BLANK := by
  unfold alignedRecords headingMergePass markerMergePass
  apply headingMergeLoopF_noBlank
  apply markerMergeLoopF_noBlank
  intro r hr
  exact buildRecordsAux_noBlank _ 0 none r hr

-- ======================
-- Token preservation through the output formatter (claim C7)
-- ======================

theorem map_pyUpper_tokens_pyUpper (t : Str) :
    (tokensL (pyUpper t)).map pyUpper = (tokensL t).map pyUpper := by
  rw [tokensL_pyUpper, List.map_map]
  apply List.map_congr_left
  intro x hx
  exact pyUpper_idem x

theorem dropTrailingBlanks_tokens (out : List Str) :
    ((dropTrailingBlanks out).map tokensL).flatten = (out.map tokensL).flatten := by
  have h1 : out.reverse =
      out.reverse.takeWhile lineIsBlankStr ++ out.reverse.dropWhile lineIsBlankStr :=
    (List.takeWhile_append_dropWhile _ _).symm
  have hsplit : out = dropTrailingBlanks out ++ (out.reverse.takeWhile lineIsBlankStr).reverse := by
    unfold dropTrailingBlanks
    calc out = out.reverse.reverse := (List.reverse_reverse out).symm
    _ = (out.reverse.takeWhile lineIsBlankStr ++ out.reverse.dropWhile lineIsBlankStr).reverse := by
          rw [← h1]
    _ = (out.reverse.dropWhile lineIsBlankStr).reverse ++
          (out.reverse.takeWhile lineIsBlankStr).reverse := by
          rw [List.reverse_append]
  have hz : (((out.reverse.takeWhile lineIsBlankStr).reverse.map tokensL).flatten) = [] := by
    apply flatten_map_eq_nil
    intro l hl
    rw [List.mem_reverse] at hl
    have hb : lineIsBlankStr l = true := List.mem_takeWhile_imp hl
    exact tokensL_nil_of_blank l (by simpa [lineIsBlankStr, List.isEmpty_iff] using hb)
  conv_rhs => rw [hsplit]
  rw [List.map_append, List.flatten_append, hz, List.append_nil]

theorem ensure_blank_tokens (out : List Str) (n : Nat) :
    ((ensure_blank_lines_before out n).map tokensL).flatten = (out.map tokensL).flatten := by
  unfold ensure_blank_lines_before
  dsimp only
  have hrep : (((List.replicate n ([] : Str)).map tokensL).flatten) = [] := by
    apply flatten_map_eq_nil
    intro l hl
    rw [List.eq_of_mem_replicate hl]
    rfl
  split
  · rw [List.map_append, List.flatten_append, dropTrailingBlanks_tokens, hrep, List.append_nil]
  · exact dropTrailingBlanks_tokens out

theorem emitStep_tokens (acc : List Str × Option LineType) (r : Record)
    (hb : r.type ≠ .BLANK) :
    (((emitStep acc r).1.map tokensL).flatten).map pyUpper =
      ((acc.1.map tokensL).flatten).map pyUpper ++
        (if r.merged_into_prev = true then [] else (tokensL r.text).map pyUpper) := by
  unfold emitStep
  dsimp only
  split
  · rename_i hm
    simp
  · rename_i hm
    dsimp only
    split
    · rename_i heq
      exact absurd heq hb
    all_goals
      simp only [List.map_append, List.flatten_append, List.map_cons, List.map_nil,
        List.flatten_cons, List.flatten_nil, List.append_nil, ensure_blank_tokens,
        map_pyUpper_tokens_pyUpper]

theorem foldl_emit_tokens :
    ∀ (rs : List Record), (∀ r ∈ rs, r.type ≠ .BLANK) →
      ∀ (acc : List Str × Option LineType),
        (((rs.foldl emitStep acc).1.map tokensL).flatten).map pyUpper =
          ((acc.1.map tokensL).flatten).map pyUpper ++ (visTokens rs).map pyUpper := by
  intro rs
  induction rs with
  | nil =>
    intro h acc
    simp [visTokens, visTexts]
  | cons r rest ih =>
    intro h acc
    rw [List.foldl_cons]
    rw [ih (fun x hx => h x (by simp [hx])) (emitStep acc r)]
    rw [emitStep_tokens acc r (h r (by simp))]
    rw [visTokens_cons]
    by_cases hm : r.merged_into_prev = true
    · simp [hm]
    · simp [hm]

theorem renderOutput_tokens (recs : List Record) (hb : ∀ r ∈ recs, r.type ≠ .BLANK) :
    (((renderOutput recs).map tokensL).flatten).map pyUpper = (visTokens recs).map pyUpper := by
  unfold renderOutput
  rw [foldl_emit_tokens recs hb ([], none)]
  rfl

/-- Claim C7 as amended: the whitespace-separated tokens of the kept input
lines (neither blank nor standalone page numbers) are preserved in the
output in order, up to the upper-casing the formatter applies to
heading-like lines. -/
theorem C7_token_preservation :
    ∀ (raw : String),
      upTokens ((splitlinesL raw.data).filter keptLine) =
        (tokensL (process_text_alignment raw).data).map pyUpper := by
  intro raw
  show upTokens _ = (tokensL (processCore raw.data)).map pyUpper
  unfold processCore
  rw [tokensL_joinLines]
  rw [renderOutput_tokens _ (alignedRecords_noBlank raw.data)]
  unfold alignedRecords headingMergePass markerMergePass
  rw [headingMergeLoopF_tokens, markerMergeLoopF_tokens]
  rw [show visTokens (buildRecords (splitlinesL raw.data)) =
        (((splitlinesL raw.data).filter keptLine).map tokensL).flatten from
        buildRecordsAux_tokens _ 0 none]
  rfl


-- ======================
-- The tie-break between the two keyword sets (claim C2)
-- ======================

theorem foldl_prop {α : Type} (P : α → Prop) (f : α → α → α)
    (hf : ∀ acc x, P acc → P (f acc x)) :
    ∀ (l : List α) (acc : α), P acc → P (l.foldl f acc) := by
  intro l
  induction l with
  | nil => intro acc h; exact h
  | cons x xs ih =>
    intro acc h
    rw [List.foldl_cons]
    exact ih _ (hf acc x h)

theorem bestKeyword_spec (s : Str) :
    bestKeyword s = [] ∨ startsWithL (pyLower s) (bestKeyword s) = true := by
  unfold bestKeyword
  apply foldl_prop (fun acc => acc = [] ∨ startsWithL (pyLower s) acc = true)
  · intro acc kw h
    dsimp only
    split
    · rename_i hc
      simp only [Bool.and_eq_true] at hc
      exact Or.inr hc.1.1
    · exact h
  · exact Or.inl rfl

theorem C2_core (stripped : Str) (prev : Option LineType) (kw : Str)
    (hst : pyStrip stripped = stripped)
    (h1 : memStr (pyLower (firstWordL stripped)) ALL_DETECT_KEYWORDS = true)
    (h2 : bestKeyword stripped = kw)
    (h3 : memStr kw DETECT_KEYWORDS_UPPER = true)
    (h4 : memStr kw DETECT_KEYWORDS_TITLE = true) :
    identifyCore stripped prev = .HEADING_UPPER := by
  have hkw_mem : kw ∈ DETECT_KEYWORDS_UPPER := by
    have h5 : ∃ y ∈ DETECT_KEYWORDS_UPPER, y = kw := by
      simpa [memStr, List.any_eq_true] using h3
    obtain ⟨y, hy, he⟩ := h5
    exact he ▸ hy
  have hkfacts : DETECT_KEYWORDS_UPPER.all (fun k =>
      !(memStr k DETECT_KEYWORDS_TITLE) ||
      (decide (2 < k.length) &&
       !startsWithL ['p', 'r', 'e', 'a', 'm', 'b', 'l', 'e'] k &&
       PREAMBLE_INTRO_PHRASES.all (fun p => !startsWithL (pyLower p) k) &&
       DETECT_TRANSITIONAL_PHRASES_LOWER.all (fun t => !startsWithL t k) &&
       (match k with | [] => false | c :: _ => !isDigitChar c && !isSpaceChar c) &&
       AMBIGUOUS_TITLE_KEYWORDS.all (fun a =>
         !(decide (k = a.take k.length)) && !(decide (a = k.take a.length))))) = true := by
    decide
  have hk0 := List.all_eq_true.mp hkfacts kw hkw_mem
  rw [h4] at hk0
  simp only [Bool.not_true, Bool.false_or, Bool.and_eq_true, Bool.not_eq_true',
    decide_eq_true_eq, decide_eq_false_iff_not, List.all_eq_true] at hk0
  obtain ⟨⟨⟨⟨⟨h_len, h_pre⟩, h_intro⟩, h_trans⟩, h_head⟩, h_amb⟩ := hk0
  have hkne : kw ≠ [] := by
    intro h0
    rw [h0] at h_len
    simp at h_len
  obtain ⟨c0, ktail, hk⟩ := List.exists_cons_of_ne_nil hkne
  have hc0 : isDigitChar c0 = false ∧ isSpaceChar c0 = false := by
    rw [hk] at h_head
    simpa using h_head
  have hsw : (pyLower stripped).take kw.length = kw := by
    rcases bestKeyword_spec stripped with hb | hb
    · rw [h2] at hb
      rw [hb] at h_len
      simp at h_len
    · rw [h2] at hb
      unfold startsWithL at hb
      exact of_decide_eq_true hb
  have hne : stripped ≠ [] := by
    intro h0
    rw [h0] at hsw
    simp [pyLower] at hsw
    exact hkne hsw
  show identifyCore stripped prev = .HEADING_UPPER
  unfold identifyCore
  dsimp only
  rw [if_neg (by simp [List.isEmpty_iff, hne])]
  have hstand : reStandaloneNumber stripped = false := by
    by_cases hq : reStandaloneNumber stripped = true
    · exfalso
      obtain ⟨d, rest, hdr⟩ := List.exists_cons_of_ne_nil hne
      have hhead : pyToLower d = c0 := by
        rw [hdr, hk] at hsw
        simp only [pyLower, List.map_cons, List.length_cons, List.take_succ_cons] at hsw
        injection hsw with hh1 hh2
      unfold reStandaloneNumber at hq
      dsimp only at hq
      rw [hdr] at hq
      by_cases hds : isSpaceChar d = true
      · have h7 : isSpaceChar c0 = true := by
          rw [← hhead, isSpaceChar_pyToLower]
          exact hds
        rw [h7] at hc0
        simp at hc0
      · rw [List.dropWhile_cons_of_neg (by simpa using hds)] at hq
        by_cases hdd : isDigitChar d = true
        · have h7 : isDigitChar c0 = true := by
            rw [← hhead, pyToLower_digit hdd]
            exact hdd
          rw [h7] at hc0
          simp at hc0
        · rw [List.takeWhile_cons_of_neg (by simpa using hdd)] at hq
          simp at hq
    · simpa using hq
  rw [if_neg (by simp [hstand])]
  have hpre2 : ¬(pyLower stripped = ['p', 'r', 'e', 'a', 'm', 'b', 'l', 'e']) := by
    intro h0
    rw [h0] at hsw
    unfold startsWithL at h_pre
    simp [hsw] at h_pre
  rw [if_neg hpre2]
  have hintro2 : (PREAMBLE_INTRO_PHRASES.any fun p => decide (stripped = p)) = false := by
    rw [List.any_eq_false]
    intro p hp
    simp only [decide_eq_true_eq]
    intro h0
    have h7 := h_intro p hp
    rw [← h0] at h7
    unfold startsWithL at h7
    simp [hsw] at h7
  rw [if_neg (by simp [hintro2])]
  have htrans2 : memStr (pyLower stripped) DETECT_TRANSITIONAL_PHRASES_LOWER = false := by
    by_cases hq : memStr (pyLower stripped) DETECT_TRANSITIONAL_PHRASES_LOWER = true
    · exfalso
      have h5 : ∃ t ∈ DETECT_TRANSITIONAL_PHRASES_LOWER, t = pyLower stripped := by
        simpa [memStr, List.any_eq_true] using hq
      obtain ⟨t, ht, he⟩ := h5
      have h7 := h_trans t ht
      rw [he] at h7
      unfold startsWithL at h7
      simp [hsw] at h7
    · simpa using hq
  rw [if_neg (by simp [htrans2])]
  have hpc : (isPreambleCtx prev &&
      PREAMBLE_CLAUSE_STARTERS.any fun w =>
        startsWithL stripped (w ++ [' ']) && !reEnumItem stripped && !reNumberedItem stripped &&
          !memStr (pyLower (firstWordL stripped)) ALL_DETECT_KEYWORDS) = false := by
    have hany : (PREAMBLE_CLAUSE_STARTERS.any fun w =>
        startsWithL stripped (w ++ [' ']) && !reEnumItem stripped && !reNumberedItem stripped &&
          !memStr (pyLower (firstWordL stripped)) ALL_DETECT_KEYWORDS) = false := by
      rw [List.any_eq_false]
      intro w hw
      rw [h1]
      simp
    rw [hany, Bool.and_false]
  rw [if_neg (by simp [hpc])]
  rw [if_pos h1, h2]
  rw [if_neg (by simp [List.isEmpty_iff, hkne])]
  rw [if_pos h3]
  dsimp only
  have hl2 : decide (kw.length ≤ 2) = false := decide_eq_false (by omega)
  rw [hl2, Bool.and_false]
  rw [if_neg (by simp)]
  have hamb : memStr (pyLower (firstWordL stripped)) AMBIGUOUS_TITLE_KEYWORDS = false := by
    by_cases hq : memStr (pyLower (firstWordL stripped)) AMBIGUOUS_TITLE_KEYWORDS = true
    · exfalso
      have h5 : ∃ a ∈ AMBIGUOUS_TITLE_KEYWORDS, a = pyLower (firstWordL stripped) := by
        simpa [memStr, List.any_eq_true] using hq
      obtain ⟨a, ha, hae⟩ := h5
      have hds : stripped.dropWhile isSpaceChar = stripped :=
        dropWhile_eq_self_of _ _ (fun c hc => pyStrip_head?_not stripped c (by rw [hst]; exact hc))
      have hfw : pyLower (firstWordL stripped) =
          (pyLower stripped).take ((stripped.takeWhile (fun c => !isSpaceChar c)).length) := by
        unfold firstWordL
        rw [hds]
        conv_lhs => rw [(take_takeWhile_length (fun c => !isSpaceChar c) stripped).symm]
        unfold pyLower
        rw [List.map_take]
      have haL : a = (pyLower stripped).take
          ((stripped.takeWhile (fun c => !isSpaceChar c)).length) := hae.trans hfw
      rcases Nat.le_total kw.length ((stripped.takeWhile (fun c => !isSpaceChar c)).length)
        with hle | hle
      · have hc1 : kw = a.take kw.length := by
          rw [haL, List.take_take]
          rw [show min kw.length ((stripped.takeWhile fun c => !isSpaceChar c).length) =
                kw.length from by omega]
          exact hsw.symm
        exact absurd hc1 (h_amb a ha).1
      · have halen : a.length =
            min ((stripped.takeWhile (fun c => !isSpaceChar c)).length)
              (pyLower stripped).length := by
          rw [haL, List.length_take]
        have hc2 : a = kw.take a.length := by
          have h8 : kw.take a.length = (pyLower stripped).take a.length := by
            rw [← hsw, List.take_take]
            rw [show min a.length kw.length = a.length from by omega]
          rw [h8, halen]
          rcases Nat.le_total ((stripped.takeWhile (fun c => !isSpaceChar c)).length)
              (pyLower stripped).length with h9 | h9
          · rw [show min ((stripped.takeWhile fun c => !isSpaceChar c).length)
                  (pyLower stripped).length =
                  (stripped.takeWhile fun c => !isSpaceChar c).length from by omega]
            exact haL
          · rw [show min ((stripped.takeWhile fun c => !isSpaceChar c).length)
                  (pyLower stripped).length = (pyLower stripped).length from by omega]
            rw [List.take_length]
            rw [haL, List.take_of_length_le h9]
        exact absurd hc2 (h_amb a ha).2
    · simpa using hq
  rw [if_neg (by simp [hamb])]

/-- Claim C2 as amended: when the longest matched heading keyword belongs to
both the upper-case and the title-case keyword sets, the code checks the
upper-case set first, so ties default to HEADING_UPPER, not HEADING_TITLE. -/
theorem C2_amended :
    ∀ (line : Str) (prev : Option LineType) (kw : Str),
      memStr (pyLower (firstWordL (pyStrip line))) ALL_DETECT_KEYWORDS = true →
      bestKeyword (pyStrip line) = kw →
      memStr kw DETECT_KEYWORDS_UPPER = true →
      memStr kw DETECT_KEYWORDS_TITLE = true →
      identify_line_type line prev = .HEADING_UPPER := by
  intro line prev kw h1 h2 h3 h4
  exact C2_core (pyStrip line) prev kw (pyStrip_idem line) h1 h2 h3 h4

theorem C2_witness :
    identify_line_type "Section 1".data none = .HEADING_UPPER :=
  C2_amended "Section 1".data none "section".data (by decide) (by decide) (by decide) (by decide)


end TextAligner
